import Mathlib

/-!
Verification development for the WPlaceBot repository (wplace.live auto bot).

The definitions below are a shallow embedding of the core logic of
`src/unnamed/part_001` (the v1.5.0 variant, which the claims cite as the
authority; `src/kurowplace.js` shares the cited functions verbatim where both
are cited): color string helpers, the lock-aware nearest-color selection, the
task-queue normalization of `loadImageFromData`, the localStorage checkpoint
(`saveState` / `loadState`), and the drawing loop of `start` / `stop`.

Modelling conventions:
* JavaScript numbers are modelled exactly (`Nat` / `Int` / `Rat`); all values
  that actually arise in the claims are far below 2^53, where IEEE doubles and
  exact integers agree.
* DOM elements are opaque to the core; a palette element is modelled by a
  numeric identity.
* `localStorage` under the single key `WPLACE_BOT_STATE_V1` is modelled as an
  `Option SavedState` field (`slot`); `JSON.stringify` / `JSON.parse` of the
  record is modelled as the identity on the structured record.
* `Date.now()` has no bearing on any claim; it is modelled as the constant 0.
-/

namespace WPlaceBot

/-- ASCII whitespace matched by the JavaScript regex class backslash-s
(space, tab, line feed, carriage return, form feed, vertical tab).  JS also
matches some Unicode spaces; none occur in this development. -/
def jsIsSpace (c : Char) : Bool :=
  c = ' ' || c = '\t' || c = '\n' || c = '\r' || c = '\x0c' || c = '\x0b'

/-- `String.prototype.trim`, over the character list. -/
def jsTrim (s : String) : String :=
  String.mk (((s.data.dropWhile jsIsSpace).reverse.dropWhile jsIsSpace).reverse)

/-- Value of a decimal digit character, if it is one. -/
def decDigit? (c : Char) : Option Nat :=
  if '0' ≤ c ∧ c ≤ '9' then some (c.toNat - '0'.toNat) else none

/-- Scanner for the global regex backslash-d-plus composed with
`parseInt(_, 10)`: walks the characters, accumulating the numeric value of the
current maximal digit run.  `parseInt` is exact for the magnitudes occurring in
this development (below 2^53). -/
def digitRunsAux : List Char → Option Nat → List Nat
  | [], none => []
  | [], some n => [n]
  | c :: cs, cur =>
    match decDigit? c with
    | some d => digitRunsAux cs (some (cur.getD 0 * 10 + d))
    | none =>
      match cur with
      | none => digitRunsAux cs none
      | some n => n :: digitRunsAux cs none

/-- `str.match(/\d+/g).map(n => parseInt(n, 10))`: numeric values of the maximal
decimal-digit runs of the string, in order (empty list models a null match). -/
def digitRuns (s : String) : List Nat := digitRunsAux s.data none

/-- Value of a hexadecimal digit character, both cases (the source regexes
carry the `i` flag). -/
def hexDigit? (c : Char) : Option Nat :=
  if '0' ≤ c ∧ c ≤ '9' then some (c.toNat - '0'.toNat)
  else if 'a' ≤ c ∧ c ≤ 'f' then some (c.toNat - 'a'.toNat + 10)
  else if 'A' ≤ c ∧ c ≤ 'F' then some (c.toNat - 'A'.toNat + 10)
  else none

/-- An RGB triple as produced by `hexToRgb` / `rgbStringToObject`. -/
structure Rgb where
  r : Nat
  g : Nat
  b : Nat
deriving DecidableEq

/-- `hexToRgb`: the anchored regex — optional hash, then exactly three groups
of two hex digits, case-insensitive; `null` on anything else. -/
def hexToRgb (hex : String) : Option Rgb :=
  let cs := if hex.data.head? = some '#' then hex.data.tail else hex.data
  match cs with
  | [c1, c2, c3, c4, c5, c6] =>
    match hexDigit? c1, hexDigit? c2, hexDigit? c3,
          hexDigit? c4, hexDigit? c5, hexDigit? c6 with
    | some h1, some h2, some h3, some h4, some h5, some h6 =>
      some ⟨h1 * 16 + h2, h3 * 16 + h4, h5 * 16 + h6⟩
    | _, _, _, _, _, _ => none
  | _ => none

/-- `rgbStringToObject`: first three decimal digit runs of the string; `null`
when there are fewer than three. -/
def rgbStringToObject (rgb : String) : Option Rgb :=
  match digitRuns rgb with
  | r :: g :: b :: _ => some ⟨r, g, b⟩
  | _ => none

/-- JavaScript `ToInt32`: reduce an exact integer into the signed 32-bit
range. -/
def jsToInt32 (n : Int) : Int :=
  let m := n % 4294967296
  if m < 2147483648 then m else m - 4294967296

/-- JavaScript `x << k` on exact integers (`k` already in 0..31). -/
def jsShl (n : Int) (k : Nat) : Int := jsToInt32 (jsToInt32 n * 2 ^ k)

/-- Fuelled digit peeling behind `Number.prototype.toString(16)` for
non-negative integers: most-significant digit first, lower-case letters.
The fuel argument only bounds recursion depth; `jsHexOfNat` supplies enough. -/
def hexDigitsCore : Nat → Nat → List Char → List Char
  | 0, _, acc => acc
  | fuel + 1, n, acc =>
    let d := Nat.digitChar (n % 16)
    if n / 16 = 0 then d :: acc else hexDigitsCore fuel (n / 16) (d :: acc)

/-- `n.toString(16)` for a non-negative integer `n`. -/
def jsHexOfNat (n : Nat) : String := String.mk (hexDigitsCore (n + 1) n [])

/-- `v.toString(16)` for the values reaching it in `rgbToHex`: an exact integer,
or NaN (modelled as `none`) when a missing channel poisoned the sum. -/
def jsNumToHexStr : Option Int → String
  | none => "NaN"
  | some n => if n < 0 then "-" ++ jsHexOfNat n.natAbs else jsHexOfNat n.toNat

/-- `rgbToHex`: digit runs are extracted globally, destructured into
`[r, g, b]` (missing positions are `undefined`), and the source computes
`'#' + ((1 << 24) + (r << 16) + (g << 8) + b).toString(16).slice(1)`.
A missing `g` is coerced to 0 by `<<` (`ToInt32(undefined) = 0`); a missing
`b` is added as `undefined`, turning the sum into NaN. -/
def rgbToHex (rgb : String) : String :=
  match digitRuns rgb with
  | [] => "#000000"
  | r :: rest =>
    let sum3 : Int := jsShl 1 24 + jsShl r 16 + jsShl ((rest.get? 0).getD 0) 8
    match rest.get? 1 with
    | none => "#" ++ (jsNumToHexStr none).drop 1
    | some b => "#" ++ (jsNumToHexStr (some (sum3 + b))).drop 1

/-- `_dist` is `Math.hypot` of the channel differences and is used only in
strict comparisons; the square root is strictly monotone and, at these
magnitudes (squared sums at most 3 * 255^2, exactly representable), the float
computation preserves the order of distinct integer squared sums.  We embed the
exact squared Euclidean distance. -/
def distSq (a b : Rgb) : Int :=
  ((a.r : Int) - b.r) ^ 2 + ((a.g : Int) - b.g) ^ 2 + ((a.b : Int) - b.b) ^ 2

/-- One discovered palette swatch: the DOM element is opaque to the core and
modelled by a numeric identity; `color` is the computed background-color
string; `locked` is the `looksLocked` result at scan time. -/
structure PaletteEntry where
  element : Nat
  color : String
  locked : Bool
deriving DecidableEq

/-- Loop state of `findClosestEntry`: best entry so far with its squared
distance; `none` models `best = null, bestD = Infinity` (every finite distance
beats Infinity). -/
def closestFold (target : Rgb) (onlyUnlocked : Bool) :
    List PaletteEntry → Option (PaletteEntry × Int) → Option (PaletteEntry × Int)
  | [], best => best
  | e :: rest, best =>
    if onlyUnlocked && e.locked then closestFold target onlyUnlocked rest best
    else
      match rgbStringToObject e.color with
      | none => closestFold target onlyUnlocked rest best
      | some rgb =>
        let d := distSq target rgb
        match best with
        | none => closestFold target onlyUnlocked rest (some (e, d))
        | some (be, bd) =>
          if d < bd then closestFold target onlyUnlocked rest (some (e, d))
          else closestFold target onlyUnlocked rest (some (be, bd))

/-- `findClosestEntry(targetHex, {onlyUnlocked})`: nearest palette entry by
`_dist`, skipping locked entries when restricted, skipping entries whose color
string does not parse; an unparseable target falls back to black. -/
def findClosestEntry (palette : List PaletteEntry) (targetHex : String)
    (onlyUnlocked : Bool) : Option PaletteEntry :=
  let target := (hexToRgb targetHex).getD ⟨0, 0, 0⟩
  (closestFold target onlyUnlocked palette none).map (fun p => p.1)

/-- One unit of work, as stored in `this.pixels` after normalization:
floored non-negative coordinates and a normalized color string. -/
structure PixelTask where
  x : Int
  y : Int
  color : String
deriving DecidableEq

/-- The `lockedColorMode` configuration: `'skip' | 'map' | 'manual'`. -/
inductive LockedMode where
  | skip
  | map
  | manual
deriving DecidableEq

/-- The record `saveState` writes under `WPLACE_BOT_STATE_V1` (JSON round trip
modelled as identity on the structured record; `savedAt = Date.now()` modelled
as 0, it has no bearing on any claim). -/
structure SavedState where
  version : Nat
  imageName : String
  startX : Int
  startY : Int
  delay : Int
  currentPixel : Nat
  totalPixels : Nat
  remaining : List PixelTask
  cellW : Option Int
  cellH : Option Int
  savedAt : Int
deriving DecidableEq

/-- The mutable fields of the `WPlaceBot` instance that the core logic reads
and writes, plus the modelled localStorage slot.  `canvasFound` stands for
`this.canvas !== null`; warned flags drop the underscore of their JS names. -/
structure EngineState where
  isRunning : Bool
  delay : Int
  currentPixel : Nat
  pixels : List PixelTask
  startX : Int
  startY : Int
  canvasFound : Bool
  colorPalette : List PaletteEntry
  selectedColor : String
  useAutoPalette : Bool
  lockedColorMode : LockedMode
  cellW : Option Int
  cellH : Option Int
  imageName : String
  warnedNoCell : Bool
  skipWarned : Bool
  manualWarned : Bool
  autoWarned : Bool
  slot : Option SavedState
deriving DecidableEq

/-- `largeSaveCap`: cap on the persisted remaining array. -/
def largeSaveCap : Nat := 50000

/-- `autosaveEvery`: checkpoint period in tasks. -/
def autosaveEvery : Nat := 20

/-- The possible return values of `selectColorSmart`:
`false`, the string `'SKIP'`, or `true`. -/
inductive SelectRet where
  | retFalse
  | retSkip
  | retTrue
deriving DecidableEq

/-- Result of `selectColorSmart`: the JS return value, which palette element
was clicked (if any), and the updated bot state. -/
structure SelectOut where
  ret : SelectRet
  clicked : Option PaletteEntry
  state : EngineState
deriving DecidableEq

/-- `selectColorSmart(targetHex)`: empty palette returns `false`; otherwise the
globally nearest entry is consulted — unlocked: click it, record its hex, and
return `true`; locked: branch on `lockedColorMode` (`skip` returns `'SKIP'`;
`manual` disables auto mode and returns `false`; `map` retries restricted to
unlocked entries, clicking the result or, if none, disabling auto mode).  The
one-time console warnings are modelled by their flags becoming true. -/
def selectColorSmart (s : EngineState) (targetHex : String) : SelectOut :=
  if s.colorPalette.isEmpty then ⟨.retFalse, none, s⟩
  else
    match findClosestEntry s.colorPalette targetHex false with
    | none => ⟨.retFalse, none, s⟩
    | some closest =>
      if closest.locked then
        match s.lockedColorMode with
        | .skip => ⟨.retSkip, none, { s with skipWarned := true }⟩
        | .manual =>
          ⟨.retFalse, none, { s with manualWarned := true, useAutoPalette := false }⟩
        | .map =>
          match findClosestEntry s.colorPalette targetHex true with
          | some unlocked =>
            ⟨.retTrue, some unlocked,
              { s with selectedColor := rgbToHex unlocked.color }⟩
          | none =>
            ⟨.retFalse, none, { s with manualWarned := true, useAutoPalette := false }⟩
      else ⟨.retTrue, some closest, { s with selectedColor := rgbToHex closest.color }⟩

/-- The record built by `saveState`: the remaining queue (suffix from the
in-memory cursor), truncated to `largeSaveCap` when longer. -/
def mkSaveState (s : EngineState) : SavedState :=
  let remaining := s.pixels.drop s.currentPixel
  { version := 1
    imageName := s.imageName
    startX := s.startX
    startY := s.startY
    delay := s.delay
    currentPixel := s.currentPixel
    totalPixels := s.pixels.length
    remaining := if remaining.length > largeSaveCap then remaining.take largeSaveCap else remaining
    cellW := s.cellW
    cellH := s.cellH
    savedAt := 0 }

/-- `saveState()`: overwrite the single localStorage slot. -/
def saveState (s : EngineState) : EngineState :=
  { s with slot := some (mkSaveState s) }

/-- `loadState()`: returns `false` on a missing slot or a version mismatch
(parse failures and the `Array.isArray` check cannot fail in the structured
model); otherwise restores the configuration (JS `||` sends a falsy — empty —
image name to the default) and installs the persisted remainder as the queue
with the cursor reset to 0. -/
def loadState (s : EngineState) : Bool × EngineState :=
  match s.slot with
  | none => (false, s)
  | some st =>
    if st.version ≠ 1 then (false, s)
    else
      (true,
        { s with
          imageName := if st.imageName = "" then "Custom Image" else st.imageName
          startX := st.startX
          startY := st.startY
          delay := st.delay
          cellW := match st.cellW with | some w => some w | none => s.cellW
          cellH := match st.cellH with | some h => some h | none => s.cellH
          pixels := st.remaining
          currentPixel := 0 })

/-- `clearState()`: remove the slot. -/
def clearState (s : EngineState) : EngineState := { s with slot := none }

/-- A JavaScript value in a coordinate position of a raw pixel description:
a finite number, a number-typed non-finite value (NaN or an infinity), or a
value that is not a number at all. -/
inductive JsVal where
  | num (q : Rat)
  | nonFinite
  | notNumber
deriving DecidableEq

/-- One raw item handed to `loadImageFromData`; `color = none` models a
non-string color value. -/
structure RawPixel where
  x : JsVal
  y : JsVal
  color : Option String
deriving DecidableEq

/-- The anchored test: hash followed by exactly six hex digits
(case-insensitive). -/
def isHex6 (s : String) : Bool :=
  match s.data with
  | '#' :: rest => rest.length = 6 && rest.all (fun c => (hexDigit? c).isSome)
  | _ => false

/-- The anchored test `rgb`, optional whitespace, an opening parenthesis,
case-insensitive on the letters. -/
def startsWithRgb (s : String) : Bool :=
  match s.data with
  | c1 :: c2 :: c3 :: rest =>
    (c1 = 'r' || c1 = 'R') && (c2 = 'g' || c2 = 'G') && (c3 = 'b' || c3 = 'B') &&
      (rest.dropWhile jsIsSpace).head? = some '('
  | _ => false

/-- The template literal rebuilding a canonical rgb string from parsed
channels before the `rgbToHex` round trip. -/
def mkRgbString (r g b : Nat) : String :=
  "rgb(" ++ toString r ++ "," ++ toString g ++ "," ++ toString b ++ ")"

/-- Per-item validation and normalization inside `loadImageFromData`:
type checks, color normalization (`#RRGGBB` kept as written, `rgb(...)`
reparsed and re-encoded through `rgbToHex`), flooring, and the non-negativity
/ finiteness check.  Any failure rejects the whole batch, so the relative
order of the checks is unobservable. -/
def normalizeItem (p : RawPixel) : Option PixelTask :=
  match p.x, p.y, p.color with
  | JsVal.num qx, JsVal.num qy, some c0 =>
    let c := jsTrim c0
    let color? : Option String :=
      if isHex6 c then some c
      else if startsWithRgb c then
        match rgbStringToObject c with
        | some rgb => some (rgbToHex (mkRgbString rgb.r rgb.g rgb.b))
        | none => none
      else none
    match color? with
    | none => none
    | some col =>
      let x := ⌊qx⌋
      let y := ⌊qy⌋
      if x < 0 ∨ y < 0 then none else some ⟨x, y, col⟩
  | _, _, _ => none

/-- The validation loop of `loadImageFromData`: all items normalize, or the
batch is rejected. -/
def normalizePixels : List RawPixel → Option (List PixelTask)
  | [] => some []
  | p :: rest =>
    match normalizeItem p with
    | none => none
    | some t => (normalizePixels rest).map (fun ts => t :: ts)

/-- Key of a task in the dedup `Map`. -/
def tkey (t : PixelTask) : Int × Int := (t.x, t.y)

/-- `Map.prototype.set` on an association list in insertion order: an existing
key keeps its position and takes the new value; a new key is appended. -/
def jsMapSet (m : List ((Int × Int) × PixelTask)) (k : Int × Int) (v : PixelTask) :
    List ((Int × Int) × PixelTask) :=
  if m.any (fun kv => kv.1 = k) then
    m.map (fun kv => if kv.1 = k then (k, v) else kv)
  else m ++ [(k, v)]

/-- The dedup loop: `for (const p of norm) map.set(key(p), p)`. -/
def buildMap : List PixelTask → List ((Int × Int) × PixelTask) →
    List ((Int × Int) × PixelTask)
  | [], m => m
  | t :: rest, m => buildMap rest (jsMapSet m (tkey t) t)

/-- `[...map.values()]` after the dedup loop. -/
def dedupPixels (norm : List PixelTask) : List PixelTask :=
  (buildMap norm []).map (fun kv => kv.2)

/-- The sort comparator `(a, b) => (a.y - b.y) || (a.x - b.x)` read as the
relation "`a` may come before `b`": ascending lexicographic on `(y, x)`. -/
def taskLeProp (a b : PixelTask) : Prop :=
  a.y < b.y ∨ (a.y = b.y ∧ a.x ≤ b.x)

instance : DecidableRel taskLeProp := fun a b => by
  unfold taskLeProp
  exact inferInstance

instance : IsTotal PixelTask taskLeProp :=
  ⟨fun a b => by unfold taskLeProp; omega⟩

instance : IsTrans PixelTask taskLeProp :=
  ⟨fun a b c hab hbc => by unfold taskLeProp at *; omega⟩

/-- `Array.prototype.sort` with the `(y, x)` comparator, modelled as insertion
sort: the ECMAScript contract fixes the output of a conforming sort up to
stability, and after dedup the keys are distinct, so every conforming sort
returns this list. -/
def sortTasks (l : List PixelTask) : List PixelTask :=
  List.insertionSort taskLeProp l

/-- `loadImageFromData(pixelData, name)`: on a validation failure returns
`false` with the bot untouched; otherwise installs the deduplicated sorted
queue, resets the cursor, sets the image name, and (queue within
`largeSaveCap`) performs the initial save. -/
def loadImageFromData (s : EngineState) (pixelData : List RawPixel) (name : String) :
    Bool × EngineState :=
  match normalizePixels pixelData with
  | none => (false, s)
  | some norm =>
    let dedup := sortTasks (dedupPixels norm)
    let s1 := { s with pixels := dedup, currentPixel := 0, imageName := name }
    (true, if dedup.length ≤ largeSaveCap then saveState s1 else s1)

/-- Effective cell width in the loop:
`(typeof cellW === 'number' && cellW > 0) ? cellW : 1`. -/
def effCellW (s : EngineState) : Int :=
  match s.cellW with
  | some w => if w > 0 then w else 1
  | none => 1

/-- Effective cell height in the loop:
`(typeof cellH === 'number' && cellH > 0) ? cellH : W` — note the fallback is
the effective width, not 1. -/
def effCellH (s : EngineState) : Int :=
  match s.cellH with
  | some h => if h > 0 then h else effCellW s
  | none => effCellW s

/-- The empty-palette downgrade at the top of `start()`: auto mode on with no
palette flips to manual; the Bool is whether the one-time advisory was emitted
on this call. -/
def paletteFallback (s : EngineState) : EngineState × Bool :=
  if s.useAutoPalette ∧ s.colorPalette.isEmpty then
    ({ s with useAutoPalette := false, autoWarned := true }, !s.autoWarned)
  else (s, false)

/-- The `while (this.isRunning && this.currentPixel < this.pixels.length)`
loop.  `stopReq c` tells whether an external `stop()` has been observed by the
time the condition is checked with cursor `c` (the cursor strictly increases,
so it indexes the checks); `W` and `H` are the effective cell sizes computed
before the loop.  Each iteration computes the device point at the centre of
the target cell, runs `selectColorSmart` in auto mode (a `'SKIP'` result
advances the cursor without placing and skips the autosave check), otherwise
records the click, advances the cursor, and autosaves every `autosaveEvery`
tasks.  The fuel argument only bounds recursion depth; `startRun` supplies the
queue length, which is enough because the cursor advances every iteration. -/
def runLoop (stopReq : Nat → Bool) (W H : Int) :
    Nat → EngineState → List (Int × Int) → EngineState × List (Int × Int)
  | 0, s, acc => (s, acc)
  | fuel + 1, s, acc =>
    if stopReq s.currentPixel then (s, acc)
    else if h : s.currentPixel < s.pixels.length then
      let p := s.pixels.get ⟨s.currentPixel, h⟩
      let dx := s.startX + p.x * W + W / 2
      let dy := s.startY + p.y * H + H / 2
      if s.useAutoPalette then
        let out := selectColorSmart s p.color
        match out.ret with
        | .retSkip =>
          runLoop stopReq W H fuel
            { out.state with currentPixel := out.state.currentPixel + 1 } acc
        | _ =>
          let s1 := { out.state with currentPixel := out.state.currentPixel + 1 }
          let s2 := if s1.currentPixel % autosaveEvery = 0 then saveState s1 else s1
          runLoop stopReq W H fuel s2 (acc ++ [(dx, dy)])
      else
        let s1 := { s with currentPixel := s.currentPixel + 1 }
        let s2 := if s1.currentPixel % autosaveEvery = 0 then saveState s1 else s1
        runLoop stopReq W H fuel s2 (acc ++ [(dx, dy)])
    else (s, acc)

/-- The device point at which the loop clicks the task at queue position `i`:
the centre of its cell, `(startX + x * W + floor(W / 2),
startY + y * H + floor(H / 2))` (the out-of-range default of `getD` is never
reached: the loop only clicks in-range positions). -/
def devicePoint (s : EngineState) (W H : Int) (i : Nat) : Int × Int :=
  (s.startX + (s.pixels.getD i ⟨0, 0, ""⟩).x * W + W / 2,
   s.startY + (s.pixels.getD i ⟨0, 0, ""⟩).y * H + H / 2)

/-- Outcome of a `start()` call. -/
inductive RunOutcome where
  | notStarted
  | finished
  | stopped
deriving DecidableEq

/-- Result of a `start()` call: final bot state, the dispatched canvas clicks
in order, the outcome, and whether the empty-palette advisory was emitted. -/
structure RunResult where
  state : EngineState
  clicks : List (Int × Int)
  outcome : RunOutcome
  advisory : Bool
deriving DecidableEq

/-- The state entering the drawing loop: after the empty-palette downgrade
and the one-time cell-size advisory, with the run flag raised. -/
def preRunState (s : EngineState) : EngineState :=
  let fb := paletteFallback s
  let s0 : EngineState :=
    if (effCellW fb.1 = 1 ∨ effCellH fb.1 = 1) ∧ !fb.1.warnedNoCell then
      { fb.1 with warnedNoCell := true }
    else fb.1
  { s0 with isRunning := true }

/-- The effective cell width of a run (`const W` in the source). -/
def runW (s : EngineState) : Int := effCellW (paletteFallback s).1

/-- The effective cell height of a run (`const H` in the source). -/
def runH (s : EngineState) : Int := effCellH (paletteFallback s).1

/-- Fuel handed to the loop: the number of tasks left at entry, which is
exactly the number of iterations a run can take (the cursor strictly
increases). -/
def runFuel (s : EngineState) : Nat :=
  (preRunState s).pixels.length - (preRunState s).currentPixel

/-- The loop of one `start()` call. -/
def loopResult (s : EngineState) (stopReq : Nat → Bool) :
    EngineState × List (Int × Int) :=
  runLoop stopReq (runW s) (runH s) (runFuel s) (preRunState s) []

/-- The bot state after the loop, run flag lowered. -/
def finalState (s : EngineState) (stopReq : Nat → Bool) : EngineState :=
  { (loopResult s stopReq).1 with isRunning := false }

/-- The body of `start()` past its precondition guards: the empty-palette
downgrade and the cell-size advisory run, the loop executes to completion or
to a stop request, and the epilogue either clears the checkpoint (cursor
reached the end: `Finished`) or persists the remainder (`Stopped`). -/
def startRunBody (s : EngineState) (stopReq : Nat → Bool) : RunResult :=
  if (finalState s stopReq).pixels.length ≤ (finalState s stopReq).currentPixel then
    RunResult.mk (clearState (finalState s stopReq)) (loopResult s stopReq).2
      .finished (paletteFallback s).2
  else
    RunResult.mk (saveState (finalState s stopReq)) (loopResult s stopReq).2
      .stopped (paletteFallback s).2

/-- `start()`: rejected re-entrant / empty-queue / no-canvas calls change
nothing; otherwise run `startRunBody`. -/
def startRun (s : EngineState) (stopReq : Nat → Bool) : RunResult :=
  if s.isRunning then ⟨s, [], .notStarted, false⟩
  else if s.pixels.isEmpty then ⟨s, [], .notStarted, false⟩
  else if !s.canvasFound then ⟨s, [], .notStarted, false⟩
  else startRunBody s stopReq

/-- Two-hex-digit lower-case encoding of one in-range channel. -/
def hex2 (n : Nat) : String :=
  String.mk [Nat.digitChar (n / 16), Nat.digitChar (n % 16)]

/-- The last element of a list of tasks carrying the given key — the
occurrence whose color wins deduplication. -/
def lastWithKey : List PixelTask → (Int × Int) → Option PixelTask
  | [], _ => none
  | t :: rest, k =>
    match lastWithKey rest k with
    | some u => some u
    | none => if tkey t = k then some t else none

/-- Lookup in the dedup association list. -/
def lookupKey (m : List ((Int × Int) × PixelTask)) (k : Int × Int) :
    Option PixelTask :=
  (m.find? (fun kv => kv.1 = k)).map (fun kv => kv.2)

/-- The malformed-item kinds enumerated by claim C6: a non-numeric coordinate,
a coordinate negative after flooring, or a color string that is neither
`#RRGGBB` nor `rgb(r,g,b)`. -/
def claimMalformed (p : RawPixel) : Prop :=
  p.x = JsVal.notNumber ∨ p.y = JsVal.notNumber ∨
  (∃ q, p.x = JsVal.num q ∧ ⌊q⌋ < 0) ∨ (∃ q, p.y = JsVal.num q ∧ ⌊q⌋ < 0) ∨
  (∃ c, p.color = some c ∧ isHex6 (jsTrim c) = false ∧
    (startsWithRgb (jsTrim c) = false ∨ rgbStringToObject (jsTrim c) = none))

/-- A baseline bot state for the concrete witnesses: a fresh bot with the
canvas located, mirroring the constructor defaults of the source. -/
def baseState : EngineState :=
  { isRunning := false
    delay := 600
    currentPixel := 0
    pixels := []
    startX := 120
    startY := 300
    canvasFound := true
    colorPalette := []
    selectedColor := "#000000"
    useAutoPalette := true
    lockedColorMode := .map
    cellW := none
    cellH := none
    imageName := "Custom Image"
    warnedNoCell := false
    skipWarned := false
    manualWarned := false
    autoWarned := false
    slot := none }

/-- A 50001-task queue exceeding the save cap, used to exhibit checkpoint
truncation. -/
def bigQueueState : EngineState :=
  { baseState with pixels := List.replicate 50001 ⟨0, 0, "#ff0000"⟩ }

/-! ## Theorems -/

/-- The persisted remainder never exceeds the cap. -/
theorem mkSaveState_remaining_le (s : EngineState) :
    (mkSaveState s).remaining.length ≤ largeSaveCap := by
  simp only [mkSaveState]
  split
  · simp [List.length_take]
  · omega

/-- A record written by `saveState` carries schema version 1. -/
theorem mkSaveState_version (s : EngineState) : (mkSaveState s).version = 1 := rfl

/-- `loadState` on a slot holding a version-1 record succeeds, installs the
persisted remainder as the queue, and resets the cursor. -/
theorem loadState_of_slot (s : EngineState) (st : SavedState)
    (hs : s.slot = some st) (hv : st.version = 1) :
    (loadState s).1 = true ∧ (loadState s).2.pixels = st.remaining ∧
      (loadState s).2.currentPixel = 0 := by
  simp [loadState, hs, hv]

/-- Claim C2: for every session state whose remaining queue (the pixels from
the current cursor onward) has length at most the cap of 50000, `saveState`
followed by `loadState` restores a pixels queue equal to that remaining queue
and a cursor equal to 0 (and the load succeeds). -/
theorem save_load_roundtrip (s : EngineState)
    (hlen : (s.pixels.drop s.currentPixel).length ≤ 50000) :
    (loadState (saveState s)).1 = true ∧
    (loadState (saveState s)).2.pixels = s.pixels.drop s.currentPixel ∧
    (loadState (saveState s)).2.currentPixel = 0 := by
  have hrem : (mkSaveState s).remaining = s.pixels.drop s.currentPixel := by
    simp only [mkSaveState]
    rw [if_neg]
    simp only [largeSaveCap]
    omega
  have h := loadState_of_slot (saveState s) (mkSaveState s) rfl rfl
  exact ⟨h.1, hrem ▸ h.2.1, h.2.2⟩

/-- Witness for C2: the round trip at a concrete one-task state. -/
theorem save_load_roundtrip_witness :
    (loadState (saveState { baseState with pixels := [⟨0, 0, "#ff0000"⟩] })).2.pixels
      = ({ baseState with
            pixels := [⟨0, 0, "#ff0000"⟩] } : EngineState).pixels.drop
          ({ baseState with pixels := [⟨0, 0, "#ff0000"⟩] } : EngineState).currentPixel :=
  (save_load_roundtrip { baseState with pixels := [⟨0, 0, "#ff0000"⟩] } (by decide)).2.1

/-- Claim C5: for every state whose remaining queue is longer than the cap of
50000 tasks, `saveState` persists exactly the first 50000 tasks of the
remaining queue (so the persisted list has length 50000), and `loadState`
never returns more than 50000 tasks from a single save. -/
theorem saveState_truncation (s : EngineState)
    (hlen : (s.pixels.drop s.currentPixel).length > 50000) :
    (mkSaveState s).remaining = (s.pixels.drop s.currentPixel).take 50000 ∧
    (mkSaveState s).remaining.length = 50000 ∧
    ∀ s2 s3 : EngineState,
      (loadState { s3 with slot := some (mkSaveState s2) }).2.pixels.length ≤ 50000 := by
  have hgt : (s.pixels.drop s.currentPixel).length > largeSaveCap := by
    simp only [largeSaveCap]; omega
  have hrem : (mkSaveState s).remaining = (s.pixels.drop s.currentPixel).take 50000 := by
    simp only [mkSaveState]
    rw [if_pos hgt]
    simp [largeSaveCap]
  refine ⟨hrem, ?_, ?_⟩
  · rw [hrem]
    simp only [List.length_take]
    omega
  · intro s2 s3
    have h := loadState_of_slot { s3 with slot := some (mkSaveState s2) }
      (mkSaveState s2) rfl rfl
    rw [h.2.1]
    have := mkSaveState_remaining_le s2
    simpa [largeSaveCap] using this

/-- Witness for C5 at a state with 50001 remaining tasks. -/
theorem saveState_truncation_witness :
    (mkSaveState { baseState with
        pixels := List.replicate 50001 ⟨0, 0, "#ff0000"⟩ }).remaining.length = 50000 :=
  (saveState_truncation
    { baseState with pixels := List.replicate 50001 ⟨0, 0, "#ff0000"⟩ }
    (by
      show ((List.replicate 50001 (⟨0, 0, "#ff0000"⟩ : PixelTask)).drop 0).length > 50000
      rw [List.drop_zero, List.length_replicate]
      omega)).2.1

/-- Fuel irrelevance for the hex digit peeler: any fuel above the value yields
the same digits. -/
theorem hexDigitsCore_fuel (n : Nat) : ∀ f1 f2 acc, n < f1 → n < f2 →
    hexDigitsCore f1 n acc = hexDigitsCore f2 n acc := by
  induction n using Nat.strong_induction_on with
  | _ n ih =>
    intro f1 f2 acc h1 h2
    obtain ⟨a, rfl⟩ : ∃ a, f1 = a + 1 := ⟨f1 - 1, by omega⟩
    obtain ⟨c, rfl⟩ : ∃ c, f2 = c + 1 := ⟨f2 - 1, by omega⟩
    simp only [hexDigitsCore]
    by_cases h0 : n / 16 = 0
    · rw [if_pos h0, if_pos h0]
    · rw [if_neg h0, if_neg h0]
      exact ih (n / 16) (by omega) a c _ (by omega) (by omega)

/-- One peeling step of the hex digit computation, with the canonical fuel. -/
theorem hexDigitsCore_step (n : Nat) (acc : List Char) (h0 : n / 16 ≠ 0) :
    hexDigitsCore (n + 1) n acc
      = hexDigitsCore (n / 16 + 1) (n / 16) (Nat.digitChar (n % 16) :: acc) := by
  simp only [hexDigitsCore]
  rw [if_neg h0]
  exact hexDigitsCore_fuel (n / 16) n (n / 16 + 1) _ (by omega) (by omega)

/-- Final step of the hex digit computation. -/
theorem hexDigitsCore_last (n : Nat) (acc : List Char) (h0 : n / 16 = 0) :
    hexDigitsCore (n + 1) n acc = Nat.digitChar (n % 16) :: acc := by
  simp only [hexDigitsCore]
  rw [if_pos h0]

/-- The seven hex digits of `0x1000000 + r * 0x10000 + g * 0x100 + b` for
in-range channels: a leading 1 followed by the three channel bytes. -/
theorem hexDigits_pack (r g b : Nat) (hr : r ≤ 255) (hg : g ≤ 255) (hb : b ≤ 255) :
    jsHexOfNat (16777216 + r * 65536 + g * 256 + b)
      = String.mk ['1', Nat.digitChar (r / 16), Nat.digitChar (r % 16),
          Nat.digitChar (g / 16), Nat.digitChar (g % 16),
          Nat.digitChar (b / 16), Nat.digitChar (b % 16)] := by
  rw [jsHexOfNat]
  rw [hexDigitsCore_step (16777216 + r * 65536 + g * 256 + b) [] (by omega)]
  have m0 : (16777216 + r * 65536 + g * 256 + b) % 16 = b % 16 := by omega
  have e1 : (16777216 + r * 65536 + g * 256 + b) / 16
      = 1048576 + r * 4096 + g * 16 + b / 16 := by omega
  rw [m0, e1]
  rw [hexDigitsCore_step (1048576 + r * 4096 + g * 16 + b / 16) _ (by omega)]
  have m1 : (1048576 + r * 4096 + g * 16 + b / 16) % 16 = b / 16 := by omega
  have e2 : (1048576 + r * 4096 + g * 16 + b / 16) / 16 = 65536 + r * 256 + g := by
    omega
  rw [m1, e2]
  rw [hexDigitsCore_step (65536 + r * 256 + g) _ (by omega)]
  have m2 : (65536 + r * 256 + g) % 16 = g % 16 := by omega
  have e3 : (65536 + r * 256 + g) / 16 = 4096 + r * 16 + g / 16 := by omega
  rw [m2, e3]
  rw [hexDigitsCore_step (4096 + r * 16 + g / 16) _ (by omega)]
  have m3 : (4096 + r * 16 + g / 16) % 16 = g / 16 := by omega
  have e4 : (4096 + r * 16 + g / 16) / 16 = 256 + r := by omega
  rw [m3, e4]
  rw [hexDigitsCore_step (256 + r) _ (by omega)]
  have m4 : (256 + r) % 16 = r % 16 := by omega
  have e5 : (256 + r) / 16 = 16 + r / 16 := by omega
  rw [m4, e5]
  rw [hexDigitsCore_step (16 + r / 16) _ (by omega)]
  have m5 : (16 + r / 16) % 16 = r / 16 := by omega
  have e6 : (16 + r / 16) / 16 = 1 := by omega
  rw [m5, e6]
  rw [hexDigitsCore_last 1 _ (by omega)]
  have h1c : (1 % 16 : Nat).digitChar = '1' := by decide
  rw [h1c]

/-- `jsToInt32` is the identity in the non-negative 31-bit range. -/
theorem jsToInt32_of_small (n : Int) (h0 : 0 ≤ n) (h1 : n < 2147483648) :
    jsToInt32 n = n := by
  have hm : n % 4294967296 = n := Int.emod_eq_of_lt h0 (by omega)
  simp only [jsToInt32, hm]
  rw [if_pos h1]

/-- A JS left shift with no overflow is exact multiplication. -/
theorem jsShl_of_small (n : Int) (k : Nat) (h0 : 0 ≤ n)
    (h1 : n * 2 ^ k < 2147483648) : jsShl n k = n * 2 ^ k := by
  have hk0 : (0 : Int) < 2 ^ k := by positivity
  have hk : (1 : Int) ≤ 2 ^ k := by omega
  have hn : n < 2147483648 := by nlinarith
  have hp : 0 ≤ n * 2 ^ k := mul_nonneg h0 (le_of_lt hk0)
  rw [jsShl, jsToInt32_of_small n h0 hn, jsToInt32_of_small _ hp h1]

/-- Counterexample to claim C9 as stated: `rgbToHex` neither always produces a
six-hex-digit string (input `rgb(5)` with missing channels yields the
three-character string `#aN`) nor treats an out-of-range channel as 0 (input
`rgb(300,0,0)` yields `#2c0000`, the overflow carrying into the sliced-off
digit, instead of `#000000`). -/
theorem rgbToHex_not_clamped_cex :
    rgbToHex "rgb(5)" = "#aN" ∧ isHex6 (rgbToHex "rgb(5)") = false ∧
    rgbToHex "rgb(300,0,0)" = "#2c0000" ∧ rgbToHex "rgb(300,0,0)" ≠ "#000000" := by
  decide

/-- Claim C9 (amended): for every input with at least three digit runs whose
first three are channels each in the range 0–255, `rgbToHex` packs those three
as `#` followed by six lower-case hex digits (extra runs beyond the third are
ignored by the destructuring), and an input with no digit runs at all yields
`#000000`; a channel above 255 instead overflows into the neighbouring digits,
and a missing channel yields the non-hex string `#aN` (see the
counterexample). -/
theorem rgbToHex_in_range_packs (s : String) (r g b : Nat) (rest : List Nat)
    (hm : digitRuns s = r :: g :: b :: rest)
    (hr : r ≤ 255) (hg : g ≤ 255) (hb : b ≤ 255) :
    rgbToHex s = "#" ++ hex2 r ++ hex2 g ++ hex2 b ∧
    ∀ s2 : String, digitRuns s2 = [] → rgbToHex s2 = "#000000" := by
  refine ⟨?_, fun s2 h2 => by simp only [rgbToHex, h2]⟩
  have hrz : (r : Int) ≤ 255 := by exact_mod_cast hr
  have hgz : (g : Int) ≤ 255 := by exact_mod_cast hg
  have hp16 : (2 : Int) ^ 16 = 65536 := by norm_num
  have hp8 : (2 : Int) ^ 8 = 256 := by norm_num
  have h24 : jsShl 1 24 = 16777216 := by decide
  have h16 : jsShl (r : Int) 16 = (r : Int) * 65536 := by
    have h := jsShl_of_small (r : Int) 16 (Int.natCast_nonneg r)
      (by rw [hp16]; linarith)
    rw [h, hp16]
  have h8 : jsShl (g : Int) 8 = (g : Int) * 256 := by
    have h := jsShl_of_small (g : Int) 8 (Int.natCast_nonneg g)
      (by rw [hp8]; linarith)
    rw [h, hp8]
  simp only [rgbToHex, hm, List.get?, Option.getD_some, h24, h16, h8]
  have hsum : (16777216 + (r : Int) * 65536 + (g : Int) * 256 + (b : Int))
      = ((16777216 + r * 65536 + g * 256 + b : Nat) : Int) := by push_cast; ring
  rw [hsum]
  have hneg : ¬ ((16777216 + r * 65536 + g * 256 + b : Nat) : Int) < 0 :=
    not_lt.mpr (Int.natCast_nonneg _)
  simp only [jsNumToHexStr]
  rw [if_neg hneg, Int.toNat_natCast]
  rw [hexDigits_pack r g b hr hg hb]
  rw [String.drop_eq]
  rfl

/-- Witness for the amended C9: a four-channel input packs its first three
channels, and a digit-free input yields `#000000`. -/
theorem rgbToHex_in_range_packs_witness :
    rgbToHex "rgb(1,2,3,4)" = "#" ++ hex2 1 ++ hex2 2 ++ hex2 3 ∧
    rgbToHex "nope" = "#000000" := by
  have h := rgbToHex_in_range_packs "rgb(1,2,3,4)" 1 2 3 [4] (by decide)
    (by decide) (by decide) (by decide)
  exact ⟨h.1, h.2 "nope" (by decide)⟩

/-- If every entry of the scanned list fails to parse, the fold returns its
accumulator unchanged. -/
theorem closestFold_none (target : Rgb) (u : Bool) :
    ∀ pal : List PaletteEntry, (∀ e ∈ pal, rgbStringToObject e.color = none) →
      ∀ best, closestFold target u pal best = best := by
  intro pal
  induction pal with
  | nil => intro _ best; rfl
  | cons x rest ih =>
    intro h best
    have hx : rgbStringToObject x.color = none := h x (by simp)
    have hrest : ∀ e ∈ rest, rgbStringToObject e.color = none :=
      fun e he => h e (by simp [he])
    simp only [closestFold]
    by_cases hl : u && x.locked
    · rw [if_pos hl]; exact ih hrest best
    · rw [if_neg hl]
      simp only [hx]
      exact ih hrest best

/-- Any entry the fold returns either came from the accumulator or parsed. -/
theorem closestFold_parses (target : Rgb) (u : Bool) :
    ∀ (pal : List PaletteEntry) (best : Option (PaletteEntry × Int)),
      (∀ e d, best = some (e, d) → rgbStringToObject e.color ≠ none) →
      ∀ e d, closestFold target u pal best = some (e, d) →
        rgbStringToObject e.color ≠ none := by
  intro pal
  induction pal with
  | nil => intro best hb e d h; exact hb e d h
  | cons x rest ih =>
    intro best hb e d h
    simp only [closestFold] at h
    by_cases hl : u && x.locked
    · rw [if_pos hl] at h; exact ih best hb e d h
    · rw [if_neg hl] at h
      cases best with
      | none =>
        cases hx : rgbStringToObject x.color with
        | none =>
          simp only [hx] at h
          exact ih none hb e d h
        | some rgb =>
          simp only [hx] at h
          refine ih _ ?_ e d h
          intro e' d' he'
          obtain ⟨rfl, -⟩ : e' = x ∧ d' = distSq target rgb := by
            constructor <;> · injection he' with h1; cases h1; rfl
          simp [hx]
      | some bp =>
        obtain ⟨be, bd⟩ := bp
        cases hx : rgbStringToObject x.color with
        | none =>
          simp only [hx] at h
          exact ih _ hb e d h
        | some rgb =>
          simp only [hx] at h
          by_cases hd : distSq target rgb < bd
          · rw [if_pos hd] at h
            refine ih _ ?_ e d h
            intro e' d' he'
            obtain ⟨rfl, -⟩ : e' = x ∧ d' = distSq target rgb := by
              constructor <;> · injection he' with h1; cases h1; rfl
            simp [hx]
          · rw [if_neg hd] at h
            exact ih _ (fun e' d' he' => hb e' d' he') e d h

/-- Claim C10: over a non-empty palette in which no entry's color string
parses as an rgb triple, `findClosestEntry` returns null (for any value of the
unlocked-only restriction); and, in general, an entry whose color string does
not parse is never the returned nearest entry. -/
theorem findClosestEntry_unparseable (pal : List PaletteEntry) (targetHex : String)
    (u : Bool) (_hne : pal ≠ [])
    (hall : ∀ e ∈ pal, rgbStringToObject e.color = none) :
    findClosestEntry pal targetHex u = none ∧
    ∀ (pal2 : List PaletteEntry) (t2 : String) (u2 : Bool) (e : PaletteEntry),
      findClosestEntry pal2 t2 u2 = some e → rgbStringToObject e.color ≠ none := by
  constructor
  · simp only [findClosestEntry]
    rw [closestFold_none _ u pal hall none]
    rfl
  · intro pal2 t2 u2 e h
    simp only [findClosestEntry] at h
    cases hf : closestFold ((hexToRgb t2).getD ⟨0, 0, 0⟩) u2 pal2 none with
    | none => rw [hf] at h; simp at h
    | some p =>
      rw [hf] at h
      obtain ⟨e1, d1⟩ := p
      have he : e1 = e := by simpa using h
      subst he
      exact closestFold_parses _ u2 pal2 none (by intro e' d' h'; simp at h') e1 d1 hf

/-- Witness for C10 at a concrete single-entry unparseable palette. -/
theorem findClosestEntry_unparseable_witness :
    findClosestEntry [⟨0, "transparent", false⟩] "#ff0000" false = none :=
  (findClosestEntry_unparseable [⟨0, "transparent", false⟩] "#ff0000" false
    (by decide) (by decide)).1

/-- An unlocked-restricted scan over an all-locked list keeps its
accumulator. -/
theorem closestFold_allLocked (target : Rgb) :
    ∀ pal : List PaletteEntry, (∀ e ∈ pal, e.locked = true) →
      ∀ best, closestFold target true pal best = best := by
  intro pal
  induction pal with
  | nil => intro _ best; rfl
  | cons x rest ih =>
    intro h best
    have hx : x.locked = true := h x (by simp)
    simp only [closestFold, hx]
    exact ih (fun e he => h e (by simp [he])) best

/-- The restricted nearest search over an all-locked palette finds nothing. -/
theorem findClosestEntry_allLocked (pal : List PaletteEntry) (t : String)
    (h : ∀ e ∈ pal, e.locked = true) :
    findClosestEntry pal t true = none := by
  simp only [findClosestEntry]
  rw [closestFold_allLocked _ pal h none]
  rfl

/-- The nearest search over the empty palette finds nothing. -/
theorem findClosestEntry_nil (t : String) (u : Bool) :
    findClosestEntry [] t u = none := rfl

/-- Claim C3: when the entry nearest to the target over all entries is locked,
`selectColorSmart` follows the locked-color mode: `skip` returns the `'SKIP'`
sentinel; `manual` returns `false` (defer to manual) and disables auto color
mode; `map` clicks and returns the entry found by the unlocked-restricted
nearest search when it finds one (recording its hex as the selected color),
and otherwise — in particular whenever no unlocked entry exists at all —
returns `false` and disables auto color mode. -/
theorem selectColorSmart_locked_policy (s : EngineState) (targetHex : String)
    (c : PaletteEntry) (hc : findClosestEntry s.colorPalette targetHex false = some c)
    (hl : c.locked = true) :
    (s.lockedColorMode = .skip → (selectColorSmart s targetHex).ret = .retSkip) ∧
    (s.lockedColorMode = .manual →
      (selectColorSmart s targetHex).ret = .retFalse ∧
      (selectColorSmart s targetHex).state.useAutoPalette = false) ∧
    (s.lockedColorMode = .map →
      ∀ alt, findClosestEntry s.colorPalette targetHex true = some alt →
        (selectColorSmart s targetHex).ret = .retTrue ∧
        (selectColorSmart s targetHex).clicked = some alt ∧
        (selectColorSmart s targetHex).state.selectedColor = rgbToHex alt.color) ∧
    (s.lockedColorMode = .map → (∀ e ∈ s.colorPalette, e.locked = true) →
      (selectColorSmart s targetHex).ret = .retFalse ∧
      (selectColorSmart s targetHex).state.useAutoPalette = false) := by
  have hne : s.colorPalette ≠ [] := by
    intro hnil
    rw [hnil, findClosestEntry_nil] at hc
    cases hc
  have hemp : s.colorPalette.isEmpty = false := by
    cases hpal : s.colorPalette with
    | nil => exact absurd hpal hne
    | cons a l => rfl
  refine ⟨?_, ?_, ?_, ?_⟩
  · intro hmode
    simp [selectColorSmart, hemp, hc, hl, hmode]
  · intro hmode
    simp [selectColorSmart, hemp, hc, hl, hmode]
  · intro hmode alt halt
    simp [selectColorSmart, hemp, hc, hl, hmode, halt]
  · intro hmode hall
    have hnone := findClosestEntry_allLocked s.colorPalette targetHex hall
    simp [selectColorSmart, hemp, hc, hl, hmode, hnone]

/-- Witness for C3 at the palette of the spec's policy table: entry A locked
at distance 1 from the target, entry B unlocked at distance 5; in `map` mode
the resolution selects B. -/
theorem selectColorSmart_locked_policy_witness :
    (selectColorSmart
        { baseState with
          colorPalette := [⟨1, "rgb(0,0,1)", true⟩, ⟨2, "rgb(0,0,5)", false⟩]
          lockedColorMode := .map }
        "#000000").ret = .retTrue ∧
    (selectColorSmart
        { baseState with
          colorPalette := [⟨1, "rgb(0,0,1)", true⟩, ⟨2, "rgb(0,0,5)", false⟩]
          lockedColorMode := .map }
        "#000000").clicked = some ⟨2, "rgb(0,0,5)", false⟩ ∧
    (selectColorSmart
        { baseState with
          colorPalette := [⟨1, "rgb(0,0,1)", true⟩, ⟨2, "rgb(0,0,5)", false⟩]
          lockedColorMode := .map }
        "#000000").state.selectedColor = rgbToHex "rgb(0,0,5)" :=
  (selectColorSmart_locked_policy
      { baseState with
        colorPalette := [⟨1, "rgb(0,0,1)", true⟩, ⟨2, "rgb(0,0,5)", false⟩]
        lockedColorMode := .map }
      "#000000" ⟨1, "rgb(0,0,1)", true⟩ (by decide) (by decide)).2.2.1
    rfl ⟨2, "rgb(0,0,5)", false⟩ (by decide)

/-- `selectColorSmart` never touches the queue. -/
theorem selectColorSmart_pixels (s : EngineState) (t : String) :
    (selectColorSmart s t).state.pixels = s.pixels := by
  simp only [selectColorSmart]
  repeat' split
  all_goals rfl

/-- `selectColorSmart` never touches the cursor. -/
theorem selectColorSmart_currentPixel (s : EngineState) (t : String) :
    (selectColorSmart s t).state.currentPixel = s.currentPixel := by
  simp only [selectColorSmart]
  repeat' split
  all_goals rfl

/-- `selectColorSmart` never touches the start offset. -/
theorem selectColorSmart_start (s : EngineState) (t : String) :
    (selectColorSmart s t).state.startX = s.startX ∧
    (selectColorSmart s t).state.startY = s.startY := by
  simp only [selectColorSmart]
  repeat' split
  all_goals exact ⟨rfl, rfl⟩

/-- Under the preconditions of `start()`, `startRun` runs its body. -/
theorem startRun_runs (s : EngineState) (stopReq : Nat → Bool)
    (h1 : s.isRunning = false) (h2 : s.pixels.isEmpty = false)
    (h3 : s.canvasFound = true) :
    startRun s stopReq = startRunBody s stopReq := by
  simp [startRun, h1, h2, h3]

/-- The cell-size advisory does not change the auto-palette flag. -/
theorem preRunState_auto (s : EngineState) :
    (preRunState s).useAutoPalette = (paletteFallback s).1.useAutoPalette := by
  simp only [preRunState]
  split <;> rfl

/-- Once auto color mode is off, the drawing loop never turns it back on. -/
theorem runLoop_auto_off (stopReq : Nat → Bool) (W H : Int) :
    ∀ (fuel : Nat) (s : EngineState) (acc : List (Int × Int)),
      s.useAutoPalette = false →
      (runLoop stopReq W H fuel s acc).1.useAutoPalette = false := by
  intro fuel
  induction fuel with
  | zero => intro s acc h; exact h
  | succ fuel ih =>
    intro s acc h
    simp only [runLoop]
    split
    · exact h
    · split
      · simp only [h, Bool.false_eq_true, if_false]
        split
        · exact ih _ _ rfl
        · exact ih _ _ rfl
      · exact h

/-- Claim C8: resolving any target color against an empty palette returns
`false` (defer to manual) with the bot state untouched, for every locked-color
mode; and the engine downgrades the session to manual mode before the first
task of a run, with the advisory emitted exactly when it has not been emitted
before, and the loop never re-enables auto mode. -/
theorem emptyPalette_defers (s : EngineState) (targetHex : String)
    (stopReq : Nat → Bool) (hp : s.colorPalette = []) :
    (selectColorSmart s targetHex).ret = .retFalse ∧
    (selectColorSmart s targetHex).state = s ∧
    (s.useAutoPalette = true →
      (paletteFallback s).1.useAutoPalette = false ∧
      (paletteFallback s).1.autoWarned = true ∧
      (paletteFallback s).2 = !s.autoWarned) ∧
    (s.isRunning = false → s.pixels.isEmpty = false → s.canvasFound = true →
      (startRun s stopReq).state.useAutoPalette = false ∧
      (s.useAutoPalette = true → (startRun s stopReq).advisory = !s.autoWarned)) := by
  refine ⟨?_, ?_, ?_, ?_⟩
  · simp [selectColorSmart, hp]
  · simp [selectColorSmart, hp]
  · intro hauto
    simp [paletteFallback, hp, hauto]
  · intro h1 h2 h3
    rw [startRun_runs s stopReq h1 h2 h3]
    have hfb : (paletteFallback s).1.useAutoPalette = false := by
      cases hauto : s.useAutoPalette with
      | true => simp [paletteFallback, hp, hauto]
      | false => simp [paletteFallback, hp, hauto]
    have hpre : (preRunState s).useAutoPalette = false := by
      rw [preRunState_auto]; exact hfb
    have hfb2 : s.useAutoPalette = true → (paletteFallback s).2 = !s.autoWarned := by
      intro hauto
      simp [paletteFallback, hp, hauto]
    have hloop : (loopResult s stopReq).1.useAutoPalette = false :=
      runLoop_auto_off stopReq (runW s) (runH s) (runFuel s) (preRunState s) [] hpre
    simp only [startRunBody]
    constructor
    · split
      · exact hloop
      · exact hloop
    · intro hauto
      split
      · exact hfb2 hauto
      · exact hfb2 hauto

/-- Witness for C8 at a concrete fresh state with an empty palette. -/
theorem emptyPalette_defers_witness :
    (selectColorSmart baseState "#123456").ret = .retFalse :=
  (emptyPalette_defers baseState "#123456" (fun _ => false) rfl).1

/-- The loop with no fuel returns its state (never reached from `start`). -/
theorem runLoop_zero (stopReq : Nat → Bool) (W H : Int) (s : EngineState)
    (acc : List (Int × Int)) : runLoop stopReq W H 0 s acc = (s, acc) := rfl

/-- A pending stop request exits the loop at the condition check. -/
theorem runLoop_stop_here (stopReq : Nat → Bool) (W H : Int) (fuel : Nat)
    (s : EngineState) (acc : List (Int × Int))
    (h : stopReq s.currentPixel = true) :
    runLoop stopReq W H (fuel + 1) s acc = (s, acc) := by
  simp [runLoop, h]

/-- A cursor at or past the end exits the loop at the condition check. -/
theorem runLoop_done (stopReq : Nat → Bool) (W H : Int) (fuel : Nat)
    (s : EngineState) (acc : List (Int × Int))
    (hs : stopReq s.currentPixel = false)
    (h : ¬ s.currentPixel < s.pixels.length) :
    runLoop stopReq W H (fuel + 1) s acc = (s, acc) := by
  simp only [runLoop, hs, Bool.false_eq_true, if_false]
  rw [dif_neg h]

/-- At an in-range queue position, the device point is the one the loop
computes from `List.get`. -/
theorem devicePoint_get (s : EngineState) (W H : Int) (i : Nat)
    (h : i < s.pixels.length) :
    devicePoint s W H i
      = (s.startX + (s.pixels.get ⟨i, h⟩).x * W + W / 2,
         s.startY + (s.pixels.get ⟨i, h⟩).y * H + H / 2) := by
  simp only [devicePoint, List.getD_eq_getElem _ _ h]
  rfl

/-- One live iteration of the loop: the cursor advances by exactly one, the
queue and start offset are untouched, manual mode is preserved, and the click
list either stays (a skipped task) or gains the device point of the task at
the current cursor — never any other task's point; in manual mode the task is
always clicked. -/
theorem runLoop_succ_next (stopReq : Nat → Bool) (W H : Int) (fuel : Nat)
    (s : EngineState) (acc : List (Int × Int))
    (hstop : stopReq s.currentPixel = false)
    (h : s.currentPixel < s.pixels.length) :
    ∃ s' acc',
      runLoop stopReq W H (fuel + 1) s acc = runLoop stopReq W H fuel s' acc' ∧
      s'.currentPixel = s.currentPixel + 1 ∧
      s'.pixels = s.pixels ∧ s'.startX = s.startX ∧ s'.startY = s.startY ∧
      (s.useAutoPalette = false → s'.useAutoPalette = false) ∧
      (acc' = acc ∨ acc' = acc ++ [devicePoint s W H s.currentPixel]) ∧
      (s.useAutoPalette = false →
        acc' = acc ++ [devicePoint s W H s.currentPixel]) := by
  simp only [runLoop, hstop, Bool.false_eq_true, if_false]
  rw [dif_pos h]
  by_cases hauto : s.useAutoPalette = true
  · rw [if_pos hauto]
    cases hret : (selectColorSmart s (s.pixels.get ⟨s.currentPixel, h⟩).color).ret with
    | retSkip =>
      simp only [hret]
      refine ⟨_, _, rfl, ?_, ?_, ?_, ?_, ?_, Or.inl rfl, ?_⟩
      · simp [selectColorSmart_currentPixel]
      · simp [selectColorSmart_pixels]
      · simp [(selectColorSmart_start s _).1]
      · simp [(selectColorSmart_start s _).2]
      · intro hf; rw [hf] at hauto; cases hauto
      · intro hf; rw [hf] at hauto; cases hauto
    | retFalse =>
      simp only [hret]
      split
      · refine ⟨_, _, rfl, ?_, ?_, ?_, ?_, ?_, Or.inr ?_, ?_⟩
        · simp [saveState, selectColorSmart_currentPixel]
        · simp [saveState, selectColorSmart_pixels]
        · simp [saveState, (selectColorSmart_start s _).1]
        · simp [saveState, (selectColorSmart_start s _).2]
        · intro hf; rw [hf] at hauto; cases hauto
        · rw [devicePoint_get s W H s.currentPixel h]
        · intro hf; rw [hf] at hauto; cases hauto
      · refine ⟨_, _, rfl, ?_, ?_, ?_, ?_, ?_, Or.inr ?_, ?_⟩
        · simp [selectColorSmart_currentPixel]
        · simp [selectColorSmart_pixels]
        · simp [(selectColorSmart_start s _).1]
        · simp [(selectColorSmart_start s _).2]
        · intro hf; rw [hf] at hauto; cases hauto
        · rw [devicePoint_get s W H s.currentPixel h]
        · intro hf; rw [hf] at hauto; cases hauto
    | retTrue =>
      simp only [hret]
      split
      · refine ⟨_, _, rfl, ?_, ?_, ?_, ?_, ?_, Or.inr ?_, ?_⟩
        · simp [saveState, selectColorSmart_currentPixel]
        · simp [saveState, selectColorSmart_pixels]
        · simp [saveState, (selectColorSmart_start s _).1]
        · simp [saveState, (selectColorSmart_start s _).2]
        · intro hf; rw [hf] at hauto; cases hauto
        · rw [devicePoint_get s W H s.currentPixel h]
        · intro hf; rw [hf] at hauto; cases hauto
      · refine ⟨_, _, rfl, ?_, ?_, ?_, ?_, ?_, Or.inr ?_, ?_⟩
        · simp [selectColorSmart_currentPixel]
        · simp [selectColorSmart_pixels]
        · simp [(selectColorSmart_start s _).1]
        · simp [(selectColorSmart_start s _).2]
        · intro hf; rw [hf] at hauto; cases hauto
        · rw [devicePoint_get s W H s.currentPixel h]
        · intro hf; rw [hf] at hauto; cases hauto
  · rw [if_neg hauto]
    split
    · refine ⟨_, _, rfl, rfl, rfl, rfl, rfl, fun hf => hf, Or.inr ?_, fun _ => ?_⟩
      · rw [devicePoint_get s W H s.currentPixel h]
      · rw [devicePoint_get s W H s.currentPixel h]
    · refine ⟨_, _, rfl, rfl, rfl, rfl, rfl, fun hf => hf, Or.inr ?_, fun _ => ?_⟩
      · rw [devicePoint_get s W H s.currentPixel h]
      · rw [devicePoint_get s W H s.currentPixel h]

/-- The loop never changes the queue or the start offset. -/
theorem runLoop_frame (stopReq : Nat → Bool) (W H : Int) :
    ∀ (fuel : Nat) (s : EngineState) (acc : List (Int × Int)),
      (runLoop stopReq W H fuel s acc).1.pixels = s.pixels ∧
      (runLoop stopReq W H fuel s acc).1.startX = s.startX ∧
      (runLoop stopReq W H fuel s acc).1.startY = s.startY := by
  intro fuel
  induction fuel with
  | zero => intro s acc; exact ⟨rfl, rfl, rfl⟩
  | succ fuel ih =>
    intro s acc
    by_cases hstop : stopReq s.currentPixel = true
    · rw [runLoop_stop_here stopReq W H fuel s acc hstop]; exact ⟨rfl, rfl, rfl⟩
    · have hstop' : stopReq s.currentPixel = false := by
        cases hv : stopReq s.currentPixel
        · rfl
        · exact absurd hv hstop
      by_cases h : s.currentPixel < s.pixels.length
      · obtain ⟨s', acc', heq, hc, hp, hx, hy, -, -, -⟩ :=
          runLoop_succ_next stopReq W H fuel s acc hstop' h
        rw [heq]
        obtain ⟨i1, i2, i3⟩ := ih s' acc'
        exact ⟨i1.trans hp, i2.trans hx, i3.trans hy⟩
      · rw [runLoop_done stopReq W H fuel s acc hstop' h]; exact ⟨rfl, rfl, rfl⟩

/-- With no stop request and enough fuel, the loop drives the cursor to the
end of the queue. -/
theorem runLoop_complete (stopReq : Nat → Bool) (W H : Int)
    (hstop : ∀ c, stopReq c = false) :
    ∀ (fuel : Nat) (s : EngineState) (acc : List (Int × Int)),
      s.currentPixel ≤ s.pixels.length →
      s.pixels.length - s.currentPixel ≤ fuel →
      (runLoop stopReq W H fuel s acc).1.currentPixel = s.pixels.length := by
  intro fuel
  induction fuel with
  | zero =>
    intro s acc hle hfu
    have : s.currentPixel = s.pixels.length := by omega
    exact this
  | succ fuel ih =>
    intro s acc hle hfu
    by_cases h : s.currentPixel < s.pixels.length
    · obtain ⟨s', acc', heq, hc, hp, -, -, -, -, -⟩ :=
        runLoop_succ_next stopReq W H fuel s acc (hstop _) h
      rw [heq]
      have := ih s' acc' (by rw [hc, hp]; omega) (by rw [hc, hp]; omega)
      rw [this, hp]
    · rw [runLoop_done stopReq W H fuel s acc (hstop _) h]
      show s.currentPixel = s.pixels.length
      omega

/-- With a stop request pending from task `j` on, the loop halts with the
cursor exactly at `j`. -/
theorem runLoop_stops (W H : Int) (j : Nat) :
    ∀ (fuel : Nat) (s : EngineState) (acc : List (Int × Int)),
      s.currentPixel ≤ j → j ≤ s.pixels.length →
      j - s.currentPixel ≤ fuel →
      (runLoop (fun c => decide (j ≤ c)) W H fuel s acc).1.currentPixel = j := by
  intro fuel
  induction fuel with
  | zero =>
    intro s acc h1 h2 h3
    have : s.currentPixel = j := by omega
    exact this
  | succ fuel ih =>
    intro s acc h1 h2 h3
    by_cases hj : j ≤ s.currentPixel
    · have hcur : s.currentPixel = j := by omega
      rw [runLoop_stop_here _ W H fuel s acc (by simp [hj])]
      exact hcur
    · have hstop' : decide (j ≤ s.currentPixel) = false := by
        simp; omega
      have h : s.currentPixel < s.pixels.length := by omega
      obtain ⟨s', acc', heq, hc, hp, -, -, -, -, -⟩ :=
        runLoop_succ_next (fun c => decide (j ≤ c)) W H fuel s acc hstop' h
      rw [heq]
      exact ih s' acc' (by omega) (by rw [hp]; omega) (by omega)

/-- The clicks the loop appends are, in order, the device points of a
strictly increasing sequence of queue positions at or past the entry cursor:
each executed task is clicked at its own cell's device point. -/
theorem runLoop_clicks_indexed (stopReq : Nat → Bool) (W H : Int) :
    ∀ (fuel : Nat) (s : EngineState) (acc : List (Int × Int)),
      ∃ idxs : List Nat,
        idxs.Pairwise (· < ·) ∧
        (∀ i ∈ idxs, s.currentPixel ≤ i ∧ i < s.pixels.length) ∧
        (runLoop stopReq W H fuel s acc).2
          = acc ++ idxs.map (devicePoint s W H) := by
  intro fuel
  induction fuel with
  | zero =>
    intro s acc
    refine ⟨[], List.Pairwise.nil, ?_, ?_⟩
    · intro i hi
      cases hi
    · rw [runLoop_zero]
      simp
  | succ fuel ih =>
    intro s acc
    by_cases hstop : stopReq s.currentPixel = true
    · refine ⟨[], List.Pairwise.nil, ?_, ?_⟩
      · intro i hi
        cases hi
      · rw [runLoop_stop_here stopReq W H fuel s acc hstop]
        simp
    · have hstop' : stopReq s.currentPixel = false := by
        cases hv : stopReq s.currentPixel
        · rfl
        · exact absurd hv hstop
      by_cases h : s.currentPixel < s.pixels.length
      · obtain ⟨s', acc', heq, hc, hp, hx, hy, -, hacc, -⟩ :=
          runLoop_succ_next stopReq W H fuel s acc hstop' h
        obtain ⟨idxs, hpw, hbnd, hres⟩ := ih s' acc'
        have hdp : devicePoint s' W H = devicePoint s W H := by
          funext i
          simp only [devicePoint, hp, hx, hy]
        rw [hdp] at hres
        simp only [hc, hp] at hbnd
        rw [heq]
        rcases hacc with rfl | rfl
        · refine ⟨idxs, hpw, ?_, hres⟩
          intro i hi
          have hb := hbnd i hi
          exact ⟨by omega, hb.2⟩
        · refine ⟨s.currentPixel :: idxs, ?_, ?_, ?_⟩
          · rw [List.pairwise_cons]
            refine ⟨fun i hi => ?_, hpw⟩
            have hb := hbnd i hi
            omega
          · intro i hi
            rcases List.mem_cons.mp hi with rfl | hi2
            · exact ⟨le_refl _, h⟩
            · have hb := hbnd i hi2
              exact ⟨by omega, hb.2⟩
          · rw [hres, List.append_assoc]
            rfl
      · refine ⟨[], List.Pairwise.nil, ?_, ?_⟩
        · intro i hi
          cases hi
        · rw [runLoop_done stopReq W H fuel s acc hstop' h]
          simp

/-- In manual mode with no stop request and enough fuel, the loop clicks every
remaining task in queue order, each at its own cell's device point. -/
theorem runLoop_clicks_manual (stopReq : Nat → Bool) (W H : Int)
    (hst : ∀ c, stopReq c = false) :
    ∀ (fuel : Nat) (s : EngineState) (acc : List (Int × Int)),
      s.useAutoPalette = false →
      s.pixels.length - s.currentPixel ≤ fuel →
      (runLoop stopReq W H fuel s acc).2
        = acc ++ (List.range' s.currentPixel
            (s.pixels.length - s.currentPixel)).map (devicePoint s W H) := by
  intro fuel
  induction fuel with
  | zero =>
    intro s acc _ hfu
    have h0 : s.pixels.length - s.currentPixel = 0 := by omega
    rw [runLoop_zero, h0]
    simp
  | succ fuel ih =>
    intro s acc hm hfu
    by_cases h : s.currentPixel < s.pixels.length
    · obtain ⟨s', acc', heq, hc, hp, hx, hy, hau, -, hman⟩ :=
        runLoop_succ_next stopReq W H fuel s acc (hst _) h
      have hdp : devicePoint s' W H = devicePoint s W H := by
        funext i
        simp only [devicePoint, hp, hx, hy]
      have hrec := ih s' acc' (hau hm) (by rw [hp, hc]; omega)
      rw [heq, hrec, hdp, hman hm, hc, hp]
      have hn : s.pixels.length - s.currentPixel
          = (s.pixels.length - (s.currentPixel + 1)) + 1 := by omega
      rw [hn, List.append_assoc]
      rfl
    · have h0 : s.pixels.length - s.currentPixel = 0 := by omega
      rw [runLoop_done stopReq W H fuel s acc (hst _) h, h0]
      simp

/-- A manual-mode state stays manual through the empty-palette downgrade. -/
theorem paletteFallback_auto_off (s : EngineState)
    (h : s.useAutoPalette = false) :
    (paletteFallback s).1.useAutoPalette = false := by
  simp only [paletteFallback]
  split
  · rfl
  · exact h

/-- `preRunState` touches only flags: the queue, cursor, and start offset
survive. -/
theorem preRunState_fields (s : EngineState) :
    (preRunState s).pixels = s.pixels ∧ (preRunState s).currentPixel = s.currentPixel ∧
    (preRunState s).startX = s.startX ∧ (preRunState s).startY = s.startY := by
  simp only [preRunState, paletteFallback]
  repeat' split
  all_goals exact ⟨rfl, rfl, rfl, rfl⟩

/-- The empty-palette downgrade does not change the calibrated cell sizes. -/
theorem paletteFallback_cells (s : EngineState) :
    effCellW (paletteFallback s).1 = effCellW s ∧
    effCellH (paletteFallback s).1 = effCellH s := by
  simp only [paletteFallback]
  split <;> exact ⟨rfl, rfl⟩

/-- Claim C4 (amended): for a queue of `k` tasks started at cursor 0, a run
that is never stopped advances the cursor to `k`, finishes, and clears the
checkpoint; a run stopped from task `j < k` on ends stopped with a persisted
checkpoint whose remaining queue has length `min (k - j) 50000` — equal to
`k - j` whenever `k - j` is within the save cap, but truncated to 50000 for a
larger remainder (see the counterexample). -/
theorem run_termination (s : EngineState) (k j : Nat)
    (hk : s.pixels.length = k) (h0 : s.currentPixel = 0)
    (h1 : s.isRunning = false) (h2 : s.pixels.isEmpty = false)
    (h3 : s.canvasFound = true) :
    ((startRun s (fun _ => false)).state.currentPixel = k ∧
     (startRun s (fun _ => false)).outcome = .finished ∧
     (startRun s (fun _ => false)).state.slot = none) ∧
    (j < k →
      (startRun s (fun c => decide (j ≤ c))).outcome = .stopped ∧
      ∃ st, (startRun s (fun c => decide (j ≤ c))).state.slot = some st ∧
        st.remaining.length = min (k - j) 50000 ∧
        (k - j ≤ 50000 → st.remaining.length = k - j)) := by
  obtain ⟨ppx, pcur, psx, psy⟩ := preRunState_fields s
  have hcur0 : (preRunState s).currentPixel = 0 := by rw [pcur, h0]
  have hplen : (preRunState s).pixels.length = k := by rw [ppx, hk]
  have hfuel : runFuel s = k := by
    simp only [runFuel]
    rw [hplen, hcur0]
    omega
  constructor
  · have hcomp : (loopResult s (fun _ => false)).1.currentPixel
        = (preRunState s).pixels.length :=
      runLoop_complete _ (runW s) (runH s) (fun _ => rfl) (runFuel s)
        (preRunState s) [] (by rw [hcur0]; exact Nat.zero_le _) (le_refl _)
    have hpix : (loopResult s (fun _ => false)).1.pixels = (preRunState s).pixels :=
      (runLoop_frame _ (runW s) (runH s) (runFuel s) (preRunState s) []).1
    have hdone : (finalState s (fun _ => false)).pixels.length
        ≤ (finalState s (fun _ => false)).currentPixel := by
      show (loopResult s (fun _ => false)).1.pixels.length
        ≤ (loopResult s (fun _ => false)).1.currentPixel
      rw [hpix, hcomp]
    rw [startRun_runs s _ h1 h2 h3]
    simp only [startRunBody]
    rw [if_pos hdone]
    refine ⟨?_, rfl, rfl⟩
    exact hcomp.trans hplen
  · intro hj
    have hstopc : (loopResult s (fun c => decide (j ≤ c))).1.currentPixel = j :=
      runLoop_stops (runW s) (runH s) j (runFuel s) (preRunState s) []
        (by rw [hcur0]; exact Nat.zero_le _)
        (by rw [hplen]; omega)
        (by rw [hcur0, hfuel]; omega)
    have hpix : (loopResult s (fun c => decide (j ≤ c))).1.pixels
        = (preRunState s).pixels :=
      (runLoop_frame _ (runW s) (runH s) (runFuel s) (preRunState s) []).1
    have hnot : ¬ (finalState s (fun c => decide (j ≤ c))).pixels.length
        ≤ (finalState s (fun c => decide (j ≤ c))).currentPixel := by
      show ¬ (loopResult s (fun c => decide (j ≤ c))).1.pixels.length
        ≤ (loopResult s (fun c => decide (j ≤ c))).1.currentPixel
      rw [hpix, hstopc, hplen]
      omega
    have hd : (finalState s (fun c => decide (j ≤ c))).pixels.drop
        (finalState s (fun c => decide (j ≤ c))).currentPixel = s.pixels.drop j := by
      show (loopResult s (fun c => decide (j ≤ c))).1.pixels.drop
        ((loopResult s (fun c => decide (j ≤ c))).1.currentPixel) = s.pixels.drop j
      rw [hpix, hstopc, ppx]
    have hlendrop : (s.pixels.drop j).length = k - j := by
      rw [List.length_drop, hk]
    have hrem : (mkSaveState (finalState s (fun c => decide (j ≤ c)))).remaining.length
        = min (k - j) 50000 := by
      simp only [mkSaveState]
      rw [hd]
      split
      · next hgt =>
        rw [List.length_take]
        simp only [largeSaveCap] at *
        omega
      · next hle =>
        simp only [largeSaveCap] at *
        omega
    rw [startRun_runs s _ h1 h2 h3]
    simp only [startRunBody]
    rw [if_neg hnot]
    refine ⟨rfl, mkSaveState (finalState s (fun c => decide (j ≤ c))), rfl, hrem, ?_⟩
    intro hle
    rw [hrem]
    omega

/-- Witness for the amended C4 at a concrete three-task queue stopped after
one task: the checkpoint holds the remaining two tasks. -/
theorem run_termination_witness :
    (startRun
        { baseState with
          pixels := [⟨0, 0, "#ff0000"⟩, ⟨1, 0, "#ff0000"⟩, ⟨0, 1, "#ff0000"⟩] }
        (fun c => decide (1 ≤ c))).outcome = .stopped :=
  ((run_termination
      { baseState with
        pixels := [⟨0, 0, "#ff0000"⟩, ⟨1, 0, "#ff0000"⟩, ⟨0, 1, "#ff0000"⟩] }
      3 1 rfl rfl rfl rfl rfl).2 (by omega)).1

/-- Unfolding of the run loop of one `start()` call. -/
theorem loopResult_eq (s : EngineState) (stopReq : Nat → Bool) :
    loopResult s stopReq
      = runLoop stopReq (runW s) (runH s) (runFuel s) (preRunState s) [] := rfl

/-- The post-loop state shares the loop state's queue. -/
theorem finalState_pixels (s : EngineState) (stopReq : Nat → Bool) :
    (finalState s stopReq).pixels = (loopResult s stopReq).1.pixels := rfl

/-- The post-loop state shares the loop state's cursor. -/
theorem finalState_currentPixel (s : EngineState) (stopReq : Nat → Bool) :
    (finalState s stopReq).currentPixel = (loopResult s stopReq).1.currentPixel := rfl

/-- Counterexample to claim C4 as stated: a queue of 50001 tasks stopped
before the first task persists a checkpoint of 50000 tasks, not the claimed
`k - j = 50001`. -/
theorem run_termination_cex :
    (startRun bigQueueState (fun c => decide (0 ≤ c))).outcome = .stopped ∧
    ∃ st,
      (startRun bigQueueState (fun c => decide (0 ≤ c))).state.slot = some st ∧
      st.remaining.length = 50000 ∧ st.remaining.length ≠ 50001 - 0 := by
  have hk : bigQueueState.pixels.length = 50001 := by
    show (List.replicate 50001 (⟨0, 0, "#ff0000"⟩ : PixelTask)).length = 50001
    rw [List.length_replicate]
  obtain ⟨ppx, pcur, psx, psy⟩ := preRunState_fields bigQueueState
  have hcur0 : (preRunState bigQueueState).currentPixel = 0 := pcur
  have hplen : (preRunState bigQueueState).pixels.length = 50001 := by
    rw [ppx, hk]
  have hstopc0 : (runLoop (fun c => decide (0 ≤ c)) (runW bigQueueState)
      (runH bigQueueState) (runFuel bigQueueState)
      (preRunState bigQueueState) []).1.currentPixel = 0 :=
    runLoop_stops (runW bigQueueState) (runH bigQueueState) 0
      (runFuel bigQueueState) (preRunState bigQueueState) []
      (le_of_eq hcur0) (by rw [hplen]; omega) (by omega)
  have hstopc : (loopResult bigQueueState (fun c => decide (0 ≤ c))).1.currentPixel = 0 := by
    rw [loopResult_eq]
    exact hstopc0
  have hpix0 : (runLoop (fun c => decide (0 ≤ c)) (runW bigQueueState)
      (runH bigQueueState) (runFuel bigQueueState)
      (preRunState bigQueueState) []).1.pixels = (preRunState bigQueueState).pixels :=
    (runLoop_frame (fun c => decide (0 ≤ c)) (runW bigQueueState)
      (runH bigQueueState) (runFuel bigQueueState) (preRunState bigQueueState) []).1
  have hpix : (loopResult bigQueueState (fun c => decide (0 ≤ c))).1.pixels
      = (preRunState bigQueueState).pixels := by
    rw [loopResult_eq]
    exact hpix0
  have hnot : ¬ (finalState bigQueueState (fun c => decide (0 ≤ c))).pixels.length
      ≤ (finalState bigQueueState (fun c => decide (0 ≤ c))).currentPixel := by
    rw [finalState_pixels, finalState_currentPixel, hpix, hstopc, hplen]
    omega
  have hd : (finalState bigQueueState (fun c => decide (0 ≤ c))).pixels.drop
      (finalState bigQueueState (fun c => decide (0 ≤ c))).currentPixel
      = List.replicate 50001 (⟨0, 0, "#ff0000"⟩ : PixelTask) := by
    rw [finalState_pixels, finalState_currentPixel, hpix, hstopc, ppx]
    exact List.drop_zero _
  have hrem : (mkSaveState (finalState bigQueueState
      (fun c => decide (0 ≤ c)))).remaining.length = 50000 := by
    simp only [mkSaveState]
    rw [hd]
    split
    · next hgt =>
      rw [List.length_take, List.length_replicate]
      simp only [largeSaveCap]
      omega
    · next hle =>
      rw [List.length_replicate] at hle
      simp only [largeSaveCap] at hle
      omega
  rw [startRun_runs bigQueueState (fun c => decide (0 ≤ c)) rfl rfl rfl]
  simp only [startRunBody]
  rw [if_neg hnot]
  exact ⟨rfl, mkSaveState (finalState bigQueueState (fun c => decide (0 ≤ c))),
    rfl, hrem, by rw [hrem]; omega⟩

/-- Claim C7 (amended): the clicks of a run are, in queue order, the device
points of a strictly increasing sequence of queue positions — every executed
(non-skipped) task is clicked at the centre of its own cell,
`deviceX = startX + x * W + floor(W / 2)`,
`deviceY = startY + y * H + floor(H / 2)`, where `W` is the calibrated cell
width (1 when uncalibrated) and `H` is the calibrated cell height, which
defaults to the effective `W`, not to 1, when only the height is uncalibrated
(see the counterexample).  When both dimensions are uncalibrated the mapping
degrades to `deviceX = startX + x`, `deviceY = startY + y`; and a manual-mode
run that is never stopped clicks every queued task, in queue order. -/
theorem run_click_coords (s : EngineState) (stopReq : Nat → Bool)
    (h1 : s.isRunning = false) (h2 : s.pixels.isEmpty = false)
    (h3 : s.canvasFound = true) :
    (∃ idxs : List Nat,
      idxs.Pairwise (· < ·) ∧ (∀ i ∈ idxs, i < s.pixels.length) ∧
      (startRun s stopReq).clicks = idxs.map (fun i =>
        (s.startX + (s.pixels.getD i ⟨0, 0, ""⟩).x * effCellW s + effCellW s / 2,
         s.startY + (s.pixels.getD i ⟨0, 0, ""⟩).y * effCellH s + effCellH s / 2))) ∧
    (s.cellW = none → s.cellH = none →
      ∃ idxs : List Nat,
        idxs.Pairwise (· < ·) ∧ (∀ i ∈ idxs, i < s.pixels.length) ∧
        (startRun s stopReq).clicks = idxs.map (fun i =>
          (s.startX + (s.pixels.getD i ⟨0, 0, ""⟩).x,
           s.startY + (s.pixels.getD i ⟨0, 0, ""⟩).y))) ∧
    (s.useAutoPalette = false → s.currentPixel = 0 → (∀ c, stopReq c = false) →
      (startRun s stopReq).clicks = (List.range s.pixels.length).map (fun i =>
        (s.startX + (s.pixels.getD i ⟨0, 0, ""⟩).x * effCellW s + effCellW s / 2,
         s.startY + (s.pixels.getD i ⟨0, 0, ""⟩).y * effCellH s + effCellH s / 2))) := by
  obtain ⟨ppx, pcur, psx, psy⟩ := preRunState_fields s
  have hw : runW s = effCellW s := (paletteFallback_cells s).1
  have hh : runH s = effCellH s := (paletteFallback_cells s).2
  have hclicks : (startRun s stopReq).clicks = (loopResult s stopReq).2 := by
    rw [startRun_runs s stopReq h1 h2 h3]
    simp only [startRunBody]
    split
    · rfl
    · rfl
  have hdp : devicePoint (preRunState s) (runW s) (runH s) = (fun i =>
      (s.startX + (s.pixels.getD i ⟨0, 0, ""⟩).x * effCellW s + effCellW s / 2,
       s.startY + (s.pixels.getD i ⟨0, 0, ""⟩).y * effCellH s + effCellH s / 2)) := by
    funext i
    simp only [devicePoint, ppx, psx, psy, hw, hh]
  obtain ⟨idxs, hpw, hbnd, hres⟩ :=
    runLoop_clicks_indexed stopReq (runW s) (runH s) (runFuel s) (preRunState s) []
  rw [hdp] at hres
  have hbnd' : ∀ i ∈ idxs, i < s.pixels.length := by
    intro i hi
    have hb := (hbnd i hi).2
    rwa [ppx] at hb
  have hmain : (startRun s stopReq).clicks = idxs.map (fun i =>
      (s.startX + (s.pixels.getD i ⟨0, 0, ""⟩).x * effCellW s + effCellW s / 2,
       s.startY + (s.pixels.getD i ⟨0, 0, ""⟩).y * effCellH s + effCellH s / 2)) := by
    rw [hclicks, loopResult_eq, hres, List.nil_append]
  refine ⟨⟨idxs, hpw, hbnd', hmain⟩, ?_, ?_⟩
  · intro hw0 hh0
    have hW1 : effCellW s = 1 := by simp [effCellW, hw0]
    have hH1 : effCellH s = 1 := by simp [effCellH, hh0, hW1]
    refine ⟨idxs, hpw, hbnd', ?_⟩
    rw [hmain]
    have hfun : (fun i =>
        (s.startX + (s.pixels.getD i ⟨0, 0, ""⟩).x * effCellW s + effCellW s / 2,
         s.startY + (s.pixels.getD i ⟨0, 0, ""⟩).y * effCellH s + effCellH s / 2))
        = (fun i => (s.startX + (s.pixels.getD i ⟨0, 0, ""⟩).x,
                     s.startY + (s.pixels.getD i ⟨0, 0, ""⟩).y)) := by
      funext i
      rw [hW1, hH1]
      norm_num
    rw [hfun]
  · intro hm hc0 hst
    have hpau : (preRunState s).useAutoPalette = false := by
      rw [preRunState_auto]
      exact paletteFallback_auto_off s hm
    have hman := runLoop_clicks_manual stopReq (runW s) (runH s) hst (runFuel s)
      (preRunState s) [] hpau (le_refl _)
    rw [hclicks, loopResult_eq, hman, hdp, List.nil_append, pcur, hc0, ppx,
      Nat.sub_zero, ← List.range_eq_range']

/-- Witness for the amended C7: a manual-mode run of two tasks at offsets
(2, 3) and (0, 1) with uncalibrated cells, started at (120, 300), clicks each
task at its own cell: (122, 303) then (120, 301). -/
theorem run_click_coords_witness :
    (startRun { baseState with
        pixels := [⟨2, 3, "#ff0000"⟩, ⟨0, 1, "#00ff00"⟩],
        useAutoPalette := false } (fun _ => false)).clicks
      = [(122, 303), (120, 301)] := by
  have h := (run_click_coords { baseState with
      pixels := [⟨2, 3, "#ff0000"⟩, ⟨0, 1, "#00ff00"⟩],
      useAutoPalette := false } (fun _ => false) rfl rfl rfl).2.2 rfl rfl
      (fun _ => rfl)
  rw [h]
  decide

/-- Counterexample to claim C7 as stated: with `cellW` calibrated to 14 and
`cellH` uncalibrated, the run of a single task at offset (0, 0) from start
(120, 300) clicks at (127, 307) — the height fell back to the width 14 —
whereas the claim's per-dimension default of 1 predicts a `deviceY` of
`300 + 0 * 1 + floor(1 / 2) = 300`. -/
theorem run_click_coords_cex :
    (startRun { baseState with pixels := [⟨0, 0, "#ff0000"⟩], cellW := some 14 }
        (fun _ => false)).clicks = [(127, 307)] ∧
    ((307 : Int) ≠ 300 + 0 * 1 + 1 / 2) := by
  constructor
  · decide
  · decide

/-- Lookup distributes over cons. -/
theorem lookupKey_cons (a : (Int × Int) × PixelTask) (m : List ((Int × Int) × PixelTask))
    (k' : Int × Int) :
    lookupKey (a :: m) k' = if a.1 = k' then some a.2 else lookupKey m k' := by
  by_cases h : a.1 = k'
  · simp [lookupKey, List.find?_cons_of_pos, h]
  · simp [lookupKey, List.find?_cons_of_neg, h]

/-- Lookup in the empty association list. -/
theorem lookupKey_nil (k' : Int × Int) :
    lookupKey ([] : List ((Int × Int) × PixelTask)) k' = none := rfl

/-- A found binding is a member with the looked-up key. -/
theorem lookupKey_mem (m : List ((Int × Int) × PixelTask)) (k' : Int × Int)
    (v : PixelTask) (h : lookupKey m k' = some v) : (k', v) ∈ m := by
  induction m with
  | nil => simp [lookupKey_nil] at h
  | cons a m ih =>
    rw [lookupKey_cons] at h
    by_cases ha : a.1 = k'
    · rw [if_pos ha] at h
      injection h with h2
      subst h2
      subst ha
      exact List.mem_cons_self _ _
    · rw [if_neg ha] at h
      exact List.mem_cons_of_mem _ (ih h)

/-- Lookup of the value-replacement map underlying `Map.set` on an existing
key. -/
theorem lookupKey_mapReplace (k : Int × Int) (v : PixelTask) :
    ∀ (m : List ((Int × Int) × PixelTask)) (k' : Int × Int),
      lookupKey (m.map (fun kv => if kv.1 = k then (k, v) else kv)) k'
        = if k' = k then (if k ∈ m.map Prod.fst then some v else none)
          else lookupKey m k' := by
  intro m
  induction m with
  | nil =>
    intro k'
    simp [lookupKey_nil]
  | cons a m ih =>
    intro k'
    simp only [List.map_cons]
    by_cases ha : a.1 = k
    · rw [if_pos ha, lookupKey_cons]
      have hmem1 : k ∈ a.1 :: m.map Prod.fst := by
        rw [ha]
        exact List.mem_cons_self _ _
      by_cases hk : k = k'
      · rw [if_pos hk, if_pos hk.symm, if_pos hmem1]
      · have hkk2 : ¬ k' = k := fun h => hk h.symm
        rw [if_neg hk, ih k', if_neg hkk2, if_neg hkk2, lookupKey_cons,
          if_neg (fun h => hk (ha.symm.trans h))]
    · rw [if_neg ha, lookupKey_cons]
      by_cases hk : a.1 = k'
      · rw [if_pos hk]
        have hk2 : ¬ k' = k := fun h => ha (hk.trans h)
        rw [if_neg hk2, lookupKey_cons, if_pos hk]
      · rw [if_neg hk, ih k']
        by_cases hkk : k' = k
        · rw [if_pos hkk, if_pos hkk]
          have hiff : k ∈ a.1 :: m.map Prod.fst ↔ k ∈ m.map Prod.fst := by
            simp only [List.mem_cons]
            constructor
            · rintro (h | h)
              · exact absurd h.symm ha
              · exact h
            · exact Or.inr
          by_cases hmem2 : k ∈ m.map Prod.fst
          · rw [if_pos hmem2, if_pos (hiff.mpr hmem2)]
          · rw [if_neg hmem2, if_neg (fun h => hmem2 (hiff.mp h))]
        · rw [if_neg hkk, if_neg hkk, lookupKey_cons, if_neg hk]

/-- The membership probe of `Map.set` agrees with key membership. -/
theorem jsMapSet_any_iff (m : List ((Int × Int) × PixelTask)) (k : Int × Int) :
    (m.any (fun kv => kv.1 = k)) = true ↔ k ∈ m.map Prod.fst := by
  rw [List.any_eq_true]
  simp only [List.mem_map, decide_eq_true_eq]

/-- Lookup after a `Map.set`: the set key returns the new value, any other
key is unaffected. -/
theorem lookupKey_jsMapSet (m : List ((Int × Int) × PixelTask)) (k : Int × Int)
    (v : PixelTask) (k' : Int × Int) :
    lookupKey (jsMapSet m k v) k' = if k' = k then some v else lookupKey m k' := by
  simp only [jsMapSet]
  split
  · next hmem =>
    rw [lookupKey_mapReplace k v m k']
    by_cases hk : k' = k
    · rw [if_pos hk, if_pos hk]
      rw [if_pos ((jsMapSet_any_iff m k).mp hmem)]
    · rw [if_neg hk, if_neg hk]
  · next hmem =>
    induction m with
    | nil =>
      simp only [List.nil_append, lookupKey_cons, lookupKey_nil]
      by_cases hk : k' = k
      · rw [if_pos (show ((k, v) : (Int × Int) × PixelTask).1 = k' from hk.symm), if_pos hk]
      · rw [if_neg (show ¬ ((k, v) : (Int × Int) × PixelTask).1 = k' from fun h => hk h.symm), if_neg hk]
    | cons a m ih =>
      have hna : ¬ a.1 = k := by
        intro h
        exact hmem (by simp [List.any_cons, h])
      have hm2 : ¬ (m.any (fun kv => kv.1 = k)) = true := by
        intro h
        apply hmem
        simp only [List.any_cons]
        rw [h]
        simp
      simp only [List.cons_append, lookupKey_cons]
      by_cases hk : a.1 = k'
      · rw [if_pos hk, if_pos hk]
        have hk2 : ¬ k' = k := fun h => hna (hk.trans h)
        rw [if_neg hk2]
      · rw [if_neg hk, if_neg hk]
        exact ih hm2

/-- `Map.set` preserves the key list on an existing key and appends a new
key. -/
theorem jsMapSet_keys (m : List ((Int × Int) × PixelTask)) (k : Int × Int)
    (v : PixelTask) :
    (jsMapSet m k v).map Prod.fst
      = if k ∈ m.map Prod.fst then m.map Prod.fst else m.map Prod.fst ++ [k] := by
  simp only [jsMapSet]
  split
  · next hmem =>
    rw [if_pos ((jsMapSet_any_iff m k).mp hmem)]
    rw [List.map_map]
    apply List.map_congr_left
    intro kv hkv
    by_cases h : kv.1 = k
    · simp [h]
    · simp [h]
  · next hmem =>
    rw [if_neg (fun h => hmem ((jsMapSet_any_iff m k).mpr h))]
    simp

/-- Keys stay duplicate-free through `Map.set`. -/
theorem jsMapSet_keys_nodup (m : List ((Int × Int) × PixelTask)) (k : Int × Int)
    (v : PixelTask) (h : (m.map Prod.fst).Nodup) :
    ((jsMapSet m k v).map Prod.fst).Nodup := by
  rw [jsMapSet_keys]
  split
  · exact h
  · next hmem =>
    rw [List.nodup_append]
    refine ⟨h, List.nodup_singleton _, ?_⟩
    intro a ha hb
    simp only [List.mem_singleton] at hb
    subst hb
    exact hmem ha

/-- `Map.set` with a pair whose value carries its key preserves
key-consistency of the stored pairs. -/
theorem jsMapSet_consistent (m : List ((Int × Int) × PixelTask)) (k : Int × Int)
    (v : PixelTask) (hv : tkey v = k) (h : ∀ kv ∈ m, tkey kv.2 = kv.1) :
    ∀ kv ∈ jsMapSet m k v, tkey kv.2 = kv.1 := by
  intro kv hkv
  simp only [jsMapSet] at hkv
  split at hkv
  · rcases List.mem_map.mp hkv with ⟨kv0, hkv0, rfl⟩
    by_cases h0 : kv0.1 = k
    · rw [if_pos h0]
      exact hv
    · rw [if_neg h0]
      exact h kv0 hkv0
  · rcases List.mem_append.mp hkv with h1 | h1
    · exact h kv h1
    · simp only [List.mem_singleton] at h1
      subst h1
      exact hv

/-- The dedup fold looks up to the last queued occurrence of a key, falling
back to the accumulator. -/
theorem buildMap_lookup (norm : List PixelTask) :
    ∀ (m : List ((Int × Int) × PixelTask)) (k : Int × Int),
      lookupKey (buildMap norm m) k
        = match lastWithKey norm k with
          | some t => some t
          | none => lookupKey m k := by
  induction norm with
  | nil => intro m k; rfl
  | cons t rest ih =>
    intro m k
    simp only [buildMap]
    rw [ih (jsMapSet m (tkey t) t) k]
    simp only [lastWithKey]
    cases hlast : lastWithKey rest k with
    | some u => rfl
    | none =>
      rw [lookupKey_jsMapSet]
      by_cases hk : k = tkey t
      · rw [if_pos hk, if_pos hk.symm]
      · rw [if_neg hk, if_neg (fun h => hk h.symm)]

/-- The dedup fold keeps keys duplicate-free. -/
theorem buildMap_nodup (norm : List PixelTask) :
    ∀ m, (m.map Prod.fst).Nodup → ((buildMap norm m).map Prod.fst).Nodup := by
  induction norm with
  | nil => intro m h; exact h
  | cons t rest ih =>
    intro m h
    exact ih _ (jsMapSet_keys_nodup m (tkey t) t h)

/-- The dedup fold keeps every stored pair keyed by its value's key. -/
theorem buildMap_consistent (norm : List PixelTask) :
    ∀ m, (∀ kv ∈ m, tkey kv.2 = kv.1) →
      ∀ kv ∈ buildMap norm m, tkey kv.2 = kv.1 := by
  induction norm with
  | nil => intro m h; exact h
  | cons t rest ih =>
    intro m h
    exact ih _ (jsMapSet_consistent m (tkey t) t rfl h)

/-- A last occurrence carries the searched key and belongs to the list. -/
theorem lastWithKey_key (l : List PixelTask) (k : Int × Int) (t : PixelTask)
    (h : lastWithKey l k = some t) : tkey t = k ∧ t ∈ l := by
  induction l with
  | nil => cases h
  | cons a rest ih =>
    simp only [lastWithKey] at h
    cases hr : lastWithKey rest k with
    | some u =>
      rw [hr] at h
      injection h with h2
      subst h2
      obtain ⟨h1, h2⟩ := ih hr
      exact ⟨h1, List.mem_cons_of_mem _ h2⟩
    | none =>
      rw [hr] at h
      by_cases hk : tkey a = k
      · rw [if_pos hk] at h
        injection h with h2
        subst h2
        exact ⟨hk, List.mem_cons_self _ _⟩
      · rw [if_neg hk] at h
        cases h

/-- No last occurrence means the key never occurs. -/
theorem lastWithKey_none_iff (l : List PixelTask) (k : Int × Int) :
    lastWithKey l k = none ↔ ∀ t ∈ l, tkey t ≠ k := by
  induction l with
  | nil => simp [lastWithKey]
  | cons a rest ih =>
    simp only [lastWithKey]
    cases hr : lastWithKey rest k with
    | some u =>
      constructor
      · intro h
        cases h
      · intro h
        exfalso
        obtain ⟨h1, h2⟩ := lastWithKey_key rest k u hr
        exact h u (List.mem_cons_of_mem _ h2) h1
    | none =>
      by_cases hk : tkey a = k
      · rw [if_pos hk]
        constructor
        · intro h
          cases h
        · intro h
          exact absurd hk (h a (List.mem_cons_self _ _))
      · rw [if_neg hk]
        constructor
        · intro _ t ht hk2
          rcases List.mem_cons.mp ht with rfl | ht2
          · exact hk hk2
          · exact (ih.mp hr) t ht2 hk2
        · intro _
          rfl

/-- In a duplicate-free association list, the values are exactly the
successful lookups. -/
theorem mem_values_iff_lookup (m : List ((Int × Int) × PixelTask))
    (hnd : (m.map Prod.fst).Nodup) (v : PixelTask) :
    v ∈ m.map (fun kv => kv.2) ↔ ∃ k, lookupKey m k = some v := by
  induction m with
  | nil => simp [lookupKey_nil]
  | cons a m ih =>
    simp only [List.map_cons, List.nodup_cons] at hnd
    obtain ⟨hna, hnd2⟩ := hnd
    simp only [List.map_cons, List.mem_cons]
    constructor
    · rintro (rfl | hv)
      · exact ⟨a.1, by rw [lookupKey_cons, if_pos rfl]⟩
      · obtain ⟨k, hk⟩ := (ih hnd2).mp hv
        have hkm : k ∈ m.map Prod.fst :=
          List.mem_map.mpr ⟨(k, v), lookupKey_mem m k v hk, rfl⟩
        refine ⟨k, ?_⟩
        rw [lookupKey_cons, if_neg (fun ha1 => hna (by rw [ha1]; exact hkm))]
        exact hk
    · rintro ⟨k, hk⟩
      rw [lookupKey_cons] at hk
      by_cases ha : a.1 = k
      · rw [if_pos ha] at hk
        injection hk with h2
        exact Or.inl h2.symm
      · rw [if_neg ha] at hk
        exact Or.inr ((ih hnd2).mpr ⟨k, hk⟩)

/-- A key absent from a task list is counted zero times. -/
theorem countP_key_eq_zero (L : List PixelTask) (k : Int × Int)
    (h : ∀ t ∈ L, tkey t ≠ k) :
    L.countP (fun t => decide (tkey t = k)) = 0 := by
  rw [List.countP_eq_zero]
  intro t ht
  simpa using h t ht

/-- With duplicate-free keys, a present key is counted exactly once. -/
theorem countP_key_eq_one (L : List PixelTask) (k : Int × Int)
    (hnd : (L.map tkey).Nodup) (t0 : PixelTask) (ht0 : t0 ∈ L) (hk : tkey t0 = k) :
    L.countP (fun t => decide (tkey t = k)) = 1 := by
  induction L with
  | nil => cases ht0
  | cons a L ih =>
    simp only [List.map_cons, List.nodup_cons] at hnd
    obtain ⟨hna, hnd2⟩ := hnd
    rcases List.mem_cons.mp ht0 with rfl | hmem
    · have hzero : L.countP (fun t => decide (tkey t = k)) = 0 := by
        apply countP_key_eq_zero
        intro t ht htk
        exact hna (by rw [hk, ← htk]; exact List.mem_map.mpr ⟨t, ht, rfl⟩)
      rw [List.countP_cons, hzero]
      simp [hk]
    · have hka : ¬ tkey a = k := by
        intro ha
        apply hna
        rw [ha, ← hk]
        exact List.mem_map.mpr ⟨t0, hmem, rfl⟩
      rw [List.countP_cons, ih hnd2 hmem]
      simp [hka]

/-- Membership in the deduplicated list is exactly being the winning (last)
occurrence of a key. -/
theorem mem_dedupPixels (norm : List PixelTask) (t : PixelTask) :
    t ∈ dedupPixels norm ↔ lastWithKey norm (tkey t) = some t := by
  have hnd : ((buildMap norm []).map Prod.fst).Nodup :=
    buildMap_nodup norm [] (by simp)
  constructor
  · intro ht
    obtain ⟨k, hk⟩ := (mem_values_iff_lookup _ hnd t).mp ht
    have hb := buildMap_lookup norm [] k
    rw [hk] at hb
    cases hlast : lastWithKey norm k with
    | none =>
      rw [hlast] at hb
      rw [lookupKey_nil] at hb
      cases hb
    | some u =>
      rw [hlast] at hb
      injection hb with h2
      subst h2
      obtain ⟨hkey, -⟩ := lastWithKey_key norm k t hlast
      rw [hkey]
      exact hlast
  · intro hlast
    apply (mem_values_iff_lookup _ hnd t).mpr
    refine ⟨tkey t, ?_⟩
    rw [buildMap_lookup norm [] (tkey t), hlast]

/-- The keys of the deduplicated list are the keys of the dedup map. -/
theorem dedupPixels_keys (norm : List PixelTask) :
    (dedupPixels norm).map tkey = (buildMap norm []).map Prod.fst := by
  simp only [dedupPixels, List.map_map]
  apply List.map_congr_left
  intro kv hkv
  exact buildMap_consistent norm [] (by simp) kv hkv

/-- Claim C1: for every input batch accepted by `loadImageFromData`
(normalizing to `norm`), the installed task queue is strictly sorted
ascending by `(y, x)` (in particular it holds exactly one task per distinct
coordinate), every queued task is the last occurrence of its coordinate in
the normalized input (last-specified color wins), and each coordinate of the
normalized input is represented exactly once. -/
theorem loadImageFromData_queue (s : EngineState) (input : List RawPixel)
    (name : String) (norm : List PixelTask)
    (hnorm : normalizePixels input = some norm) :
    (loadImageFromData s input name).1 = true ∧
    (loadImageFromData s input name).2.pixels.Pairwise
      (fun a b => a.y < b.y ∨ (a.y = b.y ∧ a.x < b.x)) ∧
    (∀ t ∈ (loadImageFromData s input name).2.pixels,
      lastWithKey norm (tkey t) = some t) ∧
    (∀ k : Int × Int,
      ((loadImageFromData s input name).2.pixels.countP
          (fun t => decide (tkey t = k)))
        = if k ∈ norm.map tkey then 1 else 0) := by
  have hpix : (loadImageFromData s input name).2.pixels
      = sortTasks (dedupPixels norm) := by
    simp only [loadImageFromData, hnorm]
    split <;> rfl
  have h1 : (loadImageFromData s input name).1 = true := by
    simp only [loadImageFromData, hnorm]
  have hperm : List.Perm (sortTasks (dedupPixels norm)) (dedupPixels norm) :=
    List.perm_insertionSort taskLeProp (dedupPixels norm)
  have hnd : ((dedupPixels norm).map tkey).Nodup := by
    rw [dedupPixels_keys]
    exact buildMap_nodup norm [] (by simp)
  have hndL : ((sortTasks (dedupPixels norm)).map tkey).Nodup :=
    ((hperm.map tkey).nodup_iff).mpr hnd
  have hmemL : ∀ t, t ∈ sortTasks (dedupPixels norm) ↔
      lastWithKey norm (tkey t) = some t :=
    fun t => (hperm.mem_iff).trans (mem_dedupPixels norm t)
  refine ⟨h1, ?_, ?_, ?_⟩
  · rw [hpix]
    have hsort : (sortTasks (dedupPixels norm)).Pairwise taskLeProp :=
      List.sorted_insertionSort taskLeProp (dedupPixels norm)
    have hne : (sortTasks (dedupPixels norm)).Pairwise
        (fun a b => tkey a ≠ tkey b) :=
      List.pairwise_map.mp hndL
    refine (hsort.and hne).imp ?_
    intro a b hab
    obtain ⟨hle, hne2⟩ := hab
    unfold taskLeProp at hle
    have hxy : ¬ (a.x = b.x ∧ a.y = b.y) := by
      intro hxy
      apply hne2
      unfold tkey
      rw [hxy.1, hxy.2]
    omega
  · intro t ht
    rw [hpix] at ht
    exact (hmemL t).mp ht
  · intro k
    rw [hpix]
    by_cases hk : k ∈ norm.map tkey
    · rw [if_pos hk]
      have hne : lastWithKey norm k ≠ none := by
        intro hnone
        rw [lastWithKey_none_iff] at hnone
        rcases List.mem_map.mp hk with ⟨t, ht, htk⟩
        exact hnone t ht htk
      cases hlast : lastWithKey norm k with
      | none => exact absurd hlast hne
      | some u =>
        obtain ⟨hkey, -⟩ := lastWithKey_key norm k u hlast
        have hu : u ∈ sortTasks (dedupPixels norm) :=
          (hmemL u).mpr (by rw [hkey]; exact hlast)
        exact countP_key_eq_one (sortTasks (dedupPixels norm)) k hndL u hu hkey
    · rw [if_neg hk]
      apply countP_key_eq_zero
      intro t ht htk
      have hl := (hmemL t).mp ht
      obtain ⟨-, htn⟩ := lastWithKey_key norm (tkey t) t hl
      exact hk (htk ▸ List.mem_map.mpr ⟨t, htn, rfl⟩)

/-- Witness for C1: a concrete batch with a duplicate coordinate and unsorted
input order loads successfully into the dedup/sorted queue. -/
theorem loadImageFromData_queue_witness :
    (loadImageFromData baseState
      [⟨JsVal.num 1, JsVal.num 1, some "#00ff00"⟩,
       ⟨JsVal.num 0, JsVal.num 0, some "#ff0000"⟩,
       ⟨JsVal.num 1, JsVal.num 1, some "#0000ff"⟩] "img").1 = true ∧
    ∀ t ∈ (loadImageFromData baseState
      [⟨JsVal.num 1, JsVal.num 1, some "#00ff00"⟩,
       ⟨JsVal.num 0, JsVal.num 0, some "#ff0000"⟩,
       ⟨JsVal.num 1, JsVal.num 1, some "#0000ff"⟩] "img").2.pixels,
      lastWithKey [⟨1, 1, "#00ff00"⟩, ⟨0, 0, "#ff0000"⟩, ⟨1, 1, "#0000ff"⟩]
        (tkey t) = some t := by
  have h := loadImageFromData_queue baseState
    [⟨JsVal.num 1, JsVal.num 1, some "#00ff00"⟩,
     ⟨JsVal.num 0, JsVal.num 0, some "#ff0000"⟩,
     ⟨JsVal.num 1, JsVal.num 1, some "#0000ff"⟩] "img"
    [⟨1, 1, "#00ff00"⟩, ⟨0, 0, "#ff0000"⟩, ⟨1, 1, "#0000ff"⟩] (by decide)
  exact ⟨h.1, h.2.2.1⟩

/-- Any of the malformed-item kinds fails the per-item validation. -/
theorem claimMalformed_normalizeItem (p : RawPixel) (h : claimMalformed p) :
    normalizeItem p = none := by
  obtain ⟨px, py, pc⟩ := p
  simp only [claimMalformed] at h
  rcases h with h | h | ⟨q, hq, hneg⟩ | ⟨q, hq, hneg⟩ | ⟨c, hc, hhex, hrgb⟩
  · subst h
    rfl
  · subst h
    cases px <;> rfl
  · subst hq
    cases py with
    | num qy =>
      cases pc with
      | none => rfl
      | some c =>
        simp only [normalizeItem]
        split
        · rfl
        · rw [if_pos (Or.inl hneg)]
    | nonFinite => rfl
    | notNumber => rfl
  · subst hq
    cases px with
    | num qx =>
      cases pc with
      | none => rfl
      | some c =>
        simp only [normalizeItem]
        split
        · rfl
        · rw [if_pos (Or.inr hneg)]
    | nonFinite => rfl
    | notNumber => rfl
  · subst hc
    cases px with
    | num qx =>
      cases py with
      | num qy =>
        simp only [normalizeItem, hhex, Bool.false_eq_true, if_false]
        rcases hrgb with hsw | hno
        · simp only [hsw, Bool.false_eq_true, if_false]
        · split
          · rfl
          · next col heq =>
            simp only [hno] at heq
            split at heq <;> cases heq
      | nonFinite => rfl
      | notNumber => rfl
    | nonFinite => rfl
    | notNumber => rfl

/-- One failing item rejects the whole batch. -/
theorem normalizePixels_none {l : List RawPixel} {p : RawPixel}
    (hp : p ∈ l) (h : normalizeItem p = none) : normalizePixels l = none := by
  induction l with
  | nil => cases hp
  | cons a rest ih =>
    rcases List.mem_cons.mp hp with rfl | hrest
    · simp [normalizePixels, h]
    · simp only [normalizePixels]
      cases ha : normalizeItem a with
      | none => rfl
      | some t =>
        rw [ih hrest]
        rfl

/-- Claim C6: if any item of the batch is malformed — a non-numeric
coordinate, a coordinate negative after flooring, or a color string that is
neither `#RRGGBB` nor `rgb(r,g,b)` — `loadImageFromData` rejects the whole
batch atomically: it returns `false` and the bot state, including the
previously installed task queue, cursor, and image name, is unchanged. -/
theorem loadImageFromData_atomic (s : EngineState) (l : List RawPixel)
    (name : String) (h : ∃ p ∈ l, claimMalformed p) :
    loadImageFromData s l name = (false, s) := by
  obtain ⟨p, hp, hbad⟩ := h
  have hnone := normalizePixels_none hp (claimMalformed_normalizeItem p hbad)
  simp [loadImageFromData, hnone]

/-- Witness for C6: a batch whose only item has an invalid color name is
rejected with the state untouched. -/
theorem loadImageFromData_atomic_witness :
    loadImageFromData baseState [⟨JsVal.num 1, JsVal.num 1, some "red"⟩] "img"
      = (false, baseState) :=
  loadImageFromData_atomic baseState [⟨JsVal.num 1, JsVal.num 1, some "red"⟩] "img"
    ⟨⟨JsVal.num 1, JsVal.num 1, some "red"⟩, List.mem_singleton.mpr rfl,
      Or.inr (Or.inr (Or.inr (Or.inr
        ⟨"red", rfl, by decide, Or.inl (by decide)⟩)))⟩

end WPlaceBot
